import Mathlib

/-!
Verification of the milli document-ingestion transform
(`src/milli/src/update/index_documents/transform.rs`) against its
natural-language specification.

The Rust source is shallowly embedded: records, field maps, the external
sorter, the id allocator and the pipeline functions become executable Lean
definitions; fallible Rust code returns `Except Err`.  Components of the
repository that live outside the provided source tree (the `obkv` codec,
the grenad sorter, the helpers `keep_latest_obkv` / `merge_obkvs` /
`merge_two_obkvs`, `AvailableDocumentsIds`, `FieldsIdsMap`,
`ExternalDocumentsIds`, `flatten_serde_json`) are modelled from the
specification, as indicated in their doc comments.
-/

set_option autoImplicit false

namespace Milli

/-- JSON values as produced by `serde_json`: the shapes the transform
inspects (strings, numbers, and every other shape which it rejects or
passes through opaquely).  Numbers are modelled as integers; only their
decimal rendering matters to the transform. -/
inductive Json where
  | str (s : String)
  | num (n : Int)
  | bool (b : Bool)
  | null
  | arr (elems : List Json)
  | obj (fields : List (String × Json))
deriving Repr

/-- Structural decidable equality for `Json` (the derive handler does not
deal with the nested `List` occurrences on this toolchain). -/
def Json.beq : Json → Json → Bool
  | .str a, .str b => a == b
  | .num a, .num b => a == b
  | .bool a, .bool b => a == b
  | .null, .null => true
  | .arr as, .arr bs => beqList as bs
  | .obj as, .obj bs => beqObj as bs
  | _, _ => false
where
  beqList : List Json → List Json → Bool
    | [], [] => true
    | a :: as, b :: bs => Json.beq a b && beqList as bs
    | _, _ => false
  beqObj : List (String × Json) → List (String × Json) → Bool
    | [], [] => true
    | (ka, va) :: as, (kb, vb) :: bs => ka == kb && Json.beq va vb && beqObj as bs
    | _, _ => false

mutual
theorem Json.beq_refl : (a : Json) → Json.beq a a = true
  | .str _ => by simp [Json.beq]
  | .num _ => by simp [Json.beq]
  | .bool _ => by simp [Json.beq]
  | .null => by simp [Json.beq]
  | .arr as => by simp [Json.beq]; exact Json.beqList_refl as
  | .obj as => by simp [Json.beq]; exact Json.beqObj_refl as

theorem Json.beqList_refl : (as : List Json) → Json.beq.beqList as as = true
  | [] => by simp [Json.beq.beqList]
  | a :: as => by
      simp [Json.beq.beqList]
      exact ⟨Json.beq_refl a, Json.beqList_refl as⟩

theorem Json.beqObj_refl : (as : List (String × Json)) → Json.beq.beqObj as as = true
  | [] => by simp [Json.beq.beqObj]
  | (k, v) :: as => by
      simp [Json.beq.beqObj]
      exact ⟨Json.beq_refl v, Json.beqObj_refl as⟩
end

mutual
theorem Json.eq_of_beq : {a b : Json} → Json.beq a b = true → a = b
  | .str _, .str _, h => by simp [Json.beq] at h; simp [h]
  | .str _, .num _, h | .str _, .bool _, h | .str _, .null, h
  | .str _, .arr _, h | .str _, .obj _, h => by simp [Json.beq] at h
  | .num _, .str _, h => by simp [Json.beq] at h
  | .num _, .num _, h => by simp [Json.beq] at h; simp [h]
  | .num _, .bool _, h | .num _, .null, h | .num _, .arr _, h
  | .num _, .obj _, h => by simp [Json.beq] at h
  | .bool _, .str _, h | .bool _, .num _, h => by simp [Json.beq] at h
  | .bool _, .bool _, h => by simp [Json.beq] at h; simp [h]
  | .bool _, .null, h | .bool _, .arr _, h | .bool _, .obj _, h => by simp [Json.beq] at h
  | .null, .str _, h | .null, .num _, h | .null, .bool _, h => by simp [Json.beq] at h
  | .null, .null, _ => rfl
  | .null, .arr _, h | .null, .obj _, h => by simp [Json.beq] at h
  | .arr _, .str _, h | .arr _, .num _, h | .arr _, .bool _, h
  | .arr _, .null, h => by simp [Json.beq] at h
  | .arr as, .arr bs, h => by
      simp [Json.beq] at h
      have := @Json.eqList_of_beq as bs h
      simp [this]
  | .arr _, .obj _, h => by simp [Json.beq] at h
  | .obj _, .str _, h | .obj _, .num _, h | .obj _, .bool _, h
  | .obj _, .null, h | .obj _, .arr _, h => by simp [Json.beq] at h
  | .obj as, .obj bs, h => by
      simp [Json.beq] at h
      have := @Json.eqObj_of_beq as bs h
      simp [this]

theorem Json.eqList_of_beq : {as bs : List Json} → Json.beq.beqList as bs = true → as = bs
  | [], [], _ => rfl
  | [], _ :: _, h => by simp [Json.beq.beqList] at h
  | _ :: _, [], h => by simp [Json.beq.beqList] at h
  | a :: as, b :: bs, h => by
      simp [Json.beq.beqList] at h
      have h1 := @Json.eq_of_beq a b h.1
      have h2 := @Json.eqList_of_beq as bs h.2
      simp [h1, h2]

theorem Json.eqObj_of_beq : {as bs : List (String × Json)} →
    Json.beq.beqObj as bs = true → as = bs
  | [], [], _ => rfl
  | [], _ :: _, h => by simp [Json.beq.beqObj] at h
  | _ :: _, [], h => by simp [Json.beq.beqObj] at h
  | (ka, va) :: as, (kb, vb) :: bs, h => by
      simp [Json.beq.beqObj] at h
      obtain ⟨⟨hk, hv⟩, hrest⟩ := h
      have h1 := @Json.eq_of_beq va vb hv
      have h2 := @Json.eqObj_of_beq as bs hrest
      simp [hk, h1, h2]
end

instance : BEq Json := ⟨Json.beq⟩

instance : DecidableEq Json := fun a b =>
  if h : Json.beq a b = true then
    .isTrue (Json.eq_of_beq h)
  else
    .isFalse (fun he => h (he ▸ Json.beq_refl a))

/-- Raw value bytes as stored in a record: either the serialization of a
JSON value, or bytes that do not parse (`tag` distinguishes different
malformed payloads). -/
inductive Bytes where
  | wellFormed (v : Json)
  | malformed (tag : Nat)
deriving DecidableEq, Repr

/-- `serde_json::from_slice` on value bytes. -/
def parseBytes : Bytes → Option Json
  | .wellFormed v => some v
  | .malformed _ => none

/-- The error kinds of the transform, plus `panicked`, which models a Rust
panic (an `unwrap` failing), and `keyOrder`, the record codec's rejection
of unsorted or duplicate keys (spec section 4.G). -/
inductive Err where
  | attributeLimitReached
  | documentLimitReached
  | missingPrimaryKey
  | missingDocumentId
  | invalidDocumentId (documentId : Json)
  | databaseMissingEntry
  | indexingMergingKeys
  | serdeJson
  | keyOrder
  | panicked
deriving DecidableEq, Repr

instance exceptDecEq {ε α : Type} [DecidableEq ε] [DecidableEq α] :
    DecidableEq (Except ε α) := fun a b =>
  match a, b with
  | .error e, .error f =>
      if h : e = f then .isTrue (by rw [h])
      else .isFalse (fun he => h (by cases he; rfl))
  | .error _, .ok _ => .isFalse (fun he => Except.noConfusion he)
  | .ok _, .error _ => .isFalse (fun he => Except.noConfusion he)
  | .ok x, .ok y =>
      if h : x = y then .isTrue (by rw [h])
      else .isFalse (fun he => h (by cases he; rfl))

/-! ## String helpers used by the source -/

/-- `str::to_lowercase` (ASCII-relevant part). -/
def lowerStr (s : String) : String := ⟨s.data.map Char.toLower⟩

/-- `str::trim` on the character list: drop whitespace from both ends. -/
def trimChars (l : List Char) : List Char :=
  ((l.dropWhile Char.isWhitespace).reverse.dropWhile Char.isWhitespace).reverse

/-- `str::trim`. -/
def trimStr (s : String) : String := ⟨trimChars s.data⟩

/-- Whether `p` occurs at the start of `l`. -/
def leadsWith : List Char → List Char → Bool
  | [], _ => true
  | _ :: _, [] => false
  | p :: ps, c :: cs => p == c && leadsWith ps cs

/-- Whether `pat` occurs somewhere in `l`. -/
def subAt (pat : List Char) : List Char → Bool
  | [] => leadsWith pat []
  | c :: cs => leadsWith pat (c :: cs) || subAt pat cs

/-- `str::contains(pat)`: substring containment. -/
def hasSub (s pat : String) : Bool := subAt pat.toList s.toList

/-- The characters accepted by `validate_document_id`:
`'a'..='z' | 'A'..='Z' | '0'..='9' | '-' | '_'`. -/
def isValidIdChar (c : Char) : Bool :=
  ('a' ≤ c && c ≤ 'z') || ('A' ≤ c && c ≤ 'Z') || ('0' ≤ c && c ≤ '9')
    || c == '-' || c == '_'

/-- `validate_document_id` from the source: trim surrounding whitespace,
then require the remainder to be non-empty and made of accepted
characters. -/
def validate_document_id (document_id : String) : Option String :=
  let t := trimStr document_id
  if !t.data.isEmpty && t.data.all isValidIdChar then some t else none

/-! ## FieldsIdsMap (modelled from the spec, section 4.A FieldRegistry) -/

/-- Modelled from the spec: `FieldsIdsMap` (4.A FieldRegistry) is a
bijection between field names and dense 16-bit ids with monotone growth
and a `2^16` cap; the source tree only contains its users.  The id of a
name is its index in the insertion-ordered name list. -/
structure FieldsIdsMap where
  names : List String
deriving DecidableEq, Repr

/-- Index of the first occurrence of `name` in a name list. -/
def idxOf? : List String → String → Option Nat
  | [], _ => none
  | n :: ns, name => if n = name then some 0 else (idxOf? ns name).map (· + 1)

/-- `FieldsIdsMap::id(name)`. -/
def FieldsIdsMap.id (m : FieldsIdsMap) (name : String) : Option Nat :=
  idxOf? m.names name

/-- `FieldsIdsMap::name(id)`. -/
def FieldsIdsMap.name (m : FieldsIdsMap) (id : Nat) : Option String :=
  m.names.get? id

/-- `FieldsIdsMap::insert(name)`: the existing id if present, else the next
free id, else `none` past the `2^16` cap.  Also returns the updated map. -/
def FieldsIdsMap.insert (m : FieldsIdsMap) (name : String) :
    Option (Nat × FieldsIdsMap) :=
  match m.id name with
  | some i => some (i, m)
  | none =>
      if m.names.length < 65536 then
        some (m.names.length, ⟨m.names ++ [name]⟩)
      else
        none

/-- `FieldsIdsMap` iteration: `(id, name)` pairs in ascending id order. -/
def FieldsIdsMap.iterate (m : FieldsIdsMap) : List (Nat × String) :=
  m.names.enum

/-! ## Source functions: field mapping and primary-key resolution -/

/-- Insertion into a list sorted by ascending `Nat` key (stable for the
orders the source uses). -/
def insertByKey {α : Type} (x : Nat × α) : List (Nat × α) → List (Nat × α)
  | [] => [x]
  | y :: ys => if y.1 < x.1 then y :: insertByKey x ys else x :: y :: ys

/-- Sort an association list by ascending `Nat` key
(`itertools::sorted_by_key`). -/
def sortByKey {α : Type} (l : List (Nat × α)) : List (Nat × α) :=
  l.foldr insertByKey []

/-- `create_fields_mapping` from the source: walk the batch field map in
ascending local-id order; for each name take the registry id, inserting
the name if new (`AttributeLimitReached` when the registry is full).
Returns the local→global association and the updated registry. -/
def create_fields_mapping (index_field_map : FieldsIdsMap)
    (batch_field_map : List (Nat × String)) :
    Except Err (List (Nat × Nat) × FieldsIdsMap) :=
  go (sortByKey batch_field_map) index_field_map
where
  go : List (Nat × String) → FieldsIdsMap →
      Except Err (List (Nat × Nat) × FieldsIdsMap)
    | [], m => .ok ([], m)
    | (field, name) :: rest, m =>
        match m.id name with
        | some id =>
            match go rest m with
            | .error e => .error e
            | .ok (tail, m') => .ok ((field, id) :: tail, m')
        | none =>
            match m.insert name with
            | none => .error .attributeLimitReached
            | some (id, m') =>
                match go rest m' with
                | .error e => .error e
                | .ok (tail, m'') => .ok ((field, id) :: tail, m'')

/-- `find_primary_key` from the source: the first batch field name, in
ascending local-id order, whose lowercased form contains `"id"`. -/
def find_primary_key (index : List (Nat × String)) : Option String :=
  ((sortByKey index).map (·.2)).find? (fun v => hasSub (lowerStr v) "id")

/-- `compute_primary_key_pair` from the source. -/
def compute_primary_key_pair (primary_key : Option String)
    (fields_ids_map : FieldsIdsMap) (alternative_name : Option String)
    (autogenerate_docids : Bool) :
    Except Err (Nat × String × FieldsIdsMap) :=
  match primary_key, alternative_name with
  | some primary_key, _ =>
      match fields_ids_map.insert primary_key with
      | none => .error .attributeLimitReached
      | some (id, m) => .ok (id, primary_key, m)
  | none, some key =>
      match fields_ids_map.insert key with
      | none => .error .attributeLimitReached
      | some (id, m) => .ok (id, key, m)
  | none, none =>
      if !autogenerate_docids then
        .error .missingPrimaryKey
      else
        match fields_ids_map.insert "id" with
        | none => .error .attributeLimitReached
        | some (id, m) => .ok (id, "id", m)

end Milli

namespace Milli

/-! ## Records (obkv) -/

/-- A record (obkv): `(field id, value bytes)` pairs, ascending keys on
the wire. -/
abbrev Rec := List (Nat × Bytes)

/-- `obkv` record lookup. -/
def recGet (r : Rec) (k : Nat) : Option Bytes := List.lookup k r

/-- Modelled from the spec (4.G RecordCodec): the encoder must reject
unsorted or duplicate keys; on sorted input it is the identity framing. -/
def encodeObkv : List (Nat × Bytes) → Except Err Rec
  | [] => .ok []
  | [x] => .ok [x]
  | x :: y :: rest =>
      if x.1 < y.1 then
        match encodeObkv (y :: rest) with
        | .error e => .error e
        | .ok tail => .ok (x :: tail)
      else .error .keyOrder

/-- Modelled from the spec (4.H, `merge_two_obkvs` of the helpers module,
absent from the source tree): union of two sorted-key records, right
biased on key collision — the second (newer) record wins. -/
def merge_two_obkvs : Rec → Rec → Rec
  | [], new => new
  | old, [] => old
  | (k1, v1) :: old, (k2, v2) :: new =>
      if k1 < k2 then (k1, v1) :: merge_two_obkvs old ((k2, v2) :: new)
      else if k2 < k1 then (k2, v2) :: merge_two_obkvs ((k1, v1) :: old) new
      else (k2, v2) :: merge_two_obkvs old new
termination_by o n => o.length + n.length

/-- Last element of a non-empty value group. -/
def lastOf (v : Rec) : List Rec → Rec
  | [] => v
  | w :: ws => lastOf w ws

/-- Modelled from the spec (4.H `keep_latest`): keep the last value
inserted under the key. -/
def keep_latest_obkv (v : Rec) (vs : List Rec) : Rec := lastOf v vs

/-- Modelled from the spec (4.H `merge_records`): left-fold the values
with the right-biased record merge. -/
def merge_obkvs (v : Rec) (vs : List Rec) : Rec := vs.foldl merge_two_obkvs v

/-- The two batch update methods. -/
inductive IndexDocumentsMethod where
  | replaceDocuments
  | updateDocuments
deriving DecidableEq, Repr

/-- The merge function the `Transform` constructor picks for the external
sorter. -/
def mergeFnOf (method : IndexDocumentsMethod) (v : Rec) (vs : List Rec) :
    Except Err Rec :=
  match method with
  | .replaceDocuments => .ok (keep_latest_obkv v vs)
  | .updateDocuments => .ok (merge_obkvs v vs)

/-- `forbid_duplicates`: the final internal-id sorter's merge function,
from the source (`write_final_sorter`): a second value for the same key is
an `IndexingMergingKeys` invariant error. -/
def forbid_duplicates (v : Rec) (vs : List Rec) : Except Err Rec :=
  match vs with
  | [] => .ok v
  | _ :: _ => .error .indexingMergingKeys

/-! ## External sorter (modelled from the spec, section 4.H) -/

/-- Byte-lexicographic strict order on characters. -/
def charLtB (a b : Char) : Bool := a.val < b.val

/-- Byte-lexicographic strict order on character lists. -/
def strLtB : List Char → List Char → Bool
  | [], [] => false
  | [], _ :: _ => true
  | _ :: _, [] => false
  | a :: as, b :: bs => if a = b then strLtB as bs else charLtB a b

/-- Byte-lexicographic strict order on keys. -/
def keyLt (s t : String) : Bool := strLtB s.data t.data

/-- Insertion into a key list sorted by `keyLt`. -/
def insKey (x : String) : List String → List String
  | [] => [x]
  | y :: ys => if keyLt x y then x :: y :: ys else y :: insKey x ys

/-- Sort keys ascending byte-lexicographically. -/
def sortKeys (l : List String) : List String := l.foldr insKey []

/-- The values inserted under key `k`, in insertion order. -/
def gatherVals (ins : List (String × Rec)) (k : String) : List Rec :=
  ins.filterMap (fun p => if p.1 = k then some p.2 else none)

/-- Drain the listed keys: collapse each key's values with the merge
function (first value, then the rest in insertion order). -/
def drainKeys (mergeG : Rec → List Rec → Except Err Rec)
    (ins : List (String × Rec)) : List String → Except Err (List (String × Rec))
  | [] => .ok []
  | k :: ks =>
      match gatherVals ins k with
      | [] => .error .panicked
      | v :: vs =>
          match mergeG v vs with
          | .error e => .error e
          | .ok m =>
              match drainKeys mergeG ins ks with
              | .error e => .error e
              | .ok rest => .ok ((k, m) :: rest)

/-- Modelled from the spec (4.H ExternalSorter): drain yields the distinct
inserted keys in ascending order, each with its values collapsed by the
merge function in insertion order. -/
def drainSorter (mergeG : Rec → List Rec → Except Err Rec)
    (ins : List (String × Rec)) : Except Err (List (String × Rec)) :=
  drainKeys mergeG ins (sortKeys (ins.map (·.1)).dedup)

/-- Insertion into a `Nat` key list sorted ascending. -/
def insKeyN (x : Nat) : List Nat → List Nat
  | [] => [x]
  | y :: ys => if x < y then x :: y :: ys else y :: insKeyN x ys

/-- Sort internal-id keys ascending. -/
def sortKeysN (l : List Nat) : List Nat := l.foldr insKeyN []

/-- The values inserted under internal id `k`, in insertion order. -/
def gatherValsN (ins : List (Nat × Rec)) (k : Nat) : List Rec :=
  ins.filterMap (fun p => if p.1 = k then some p.2 else none)

/-- Drain the listed internal-id keys. -/
def drainKeysN (mergeG : Rec → List Rec → Except Err Rec)
    (ins : List (Nat × Rec)) : List Nat → Except Err (List (Nat × Rec))
  | [] => .ok []
  | k :: ks =>
      match gatherValsN ins k with
      | [] => .error .panicked
      | v :: vs =>
          match mergeG v vs with
          | .error e => .error e
          | .ok m =>
              match drainKeysN mergeG ins ks with
              | .error e => .error e
              | .ok rest => .ok ((k, m) :: rest)

/-- The final sorters keyed by big-endian internal id: ascending id
drain. -/
def drainSorterN (mergeG : Rec → List Rec → Except Err Rec)
    (ins : List (Nat × Rec)) : Except Err (List (Nat × Rec)) :=
  drainKeysN mergeG ins (sortKeysN (ins.map (·.1)).dedup)

/-! ## Persistent store state and accounting structures -/

/-- Modelled from the spec (4.E ExternalIdMap): `get`. -/
def extGet (m : List (String × Nat)) (k : String) : Option Nat :=
  List.lookup k m

/-- Modelled from the spec (4.E ExternalIdMap): `insert_ids`, union with
right-biased precedence — ids of the newly built map win on equal keys. -/
def insert_ids (base newIds : List (String × Nat)) : List (String × Nat) :=
  newIds ++ base

/-- Remove a key's entries from the distribution (`entry.remove()`). -/
def removeKey (name : String) : List (String × Nat) → List (String × Nat)
  | [] => []
  | (a, b) :: rest =>
      if a = name then removeKey name rest else (a, b) :: removeKey name rest

/-- Replace a key's count in the distribution (`entry.insert(count)`). -/
def setKey (name : String) (c : Nat) : List (String × Nat) → List (String × Nat)
  | [] => []
  | (a, b) :: rest =>
      if a = name then (a, c) :: setKey name c rest
      else (a, b) :: setKey name c rest

/-- `FieldDistribution` decrement as in `add_and_merge_original_document`:
`checked_sub(1)`, removing the entry when the count reaches zero (or
underflows); an absent entry is left alone. -/
def distDec (d : List (String × Nat)) (name : String) : List (String × Nat) :=
  match List.lookup name d with
  | none => d
  | some c => if c ≤ 1 then removeKey name d else setKey name (c - 1) d

/-- `FieldDistribution` increment: `entry(name).or_default() += 1`. -/
def distInc (d : List (String × Nat)) (name : String) : List (String × Nat) :=
  match List.lookup name d with
  | none => d ++ [(name, 1)]
  | some c => setKey name (c + 1) d

/-- Find the first id not in `used`, starting at `n`, with enough fuel. -/
def firstUnused (used : Finset Nat) : Nat → Nat → Option Nat
  | 0, _ => none
  | fuel + 1, n => if n ∈ used then firstUnused used fuel (n + 1) else some n

/-- Modelled from the spec (4.D IdAllocator / `AvailableDocumentsIds`):
yield the smallest internal id outside the used set; the 32-bit id space
exhausting is signalled by `none`. -/
def availNext (used : Finset Nat) : Option Nat :=
  match firstUnused used (used.card + 1) 0 with
  | some n => if n < 4294967296 then some n else none
  | none => none

/-- The part of the persistent index the transform touches. -/
structure Store where
  fields_ids_map : FieldsIdsMap
  primary_key : Option String
  documents : List (Nat × Rec)
  documents_ids : Finset Nat
  field_distribution : List (String × Nat)
  external_documents_ids : List (String × Nat)
deriving DecidableEq

/-- The handoff structure produced by the pipeline. -/
structure TransformOutput where
  primary_key : String
  fields_ids_map : FieldsIdsMap
  field_distribution : List (String × Nat)
  external_documents_ids : List (String × Nat)
  new_documents_ids : Finset Nat
  replaced_documents_ids : Finset Nat
  documents_count : Nat
  original_documents : List (Nat × Rec)
  flattened_documents : List (Nat × Rec)
deriving DecidableEq

end Milli

namespace Milli

/-! ## `add_and_merge_original_document` -/

/-- The accounting state mutated by `add_and_merge_original_document`. -/
structure MergeAcc where
  dist : List (String × Nat)
  replaced : Finset Nat
  newIds : Finset Nat
  builder : List (String × Nat)
deriving DecidableEq

/-- The `base_obkv` decrement loop of `add_and_merge_original_document`:
for every field of the prior record, look its name up (`unwrap`) and
decrement its distribution count, removing entries that reach zero. -/
def decAllFields (fmap : FieldsIdsMap) (dist : List (String × Nat)) :
    Rec → Except Err (List (String × Nat))
  | [] => .ok dist
  | (field_id, _) :: rest =>
      match fmap.name field_id with
      | none => .error .panicked
      | some field_name => decAllFields fmap (distDec dist field_name) rest

/-- The final increment loop of `add_and_merge_original_document`: count
every field of the emitted record. -/
def incAllFields (fmap : FieldsIdsMap) (dist : List (String × Nat)) :
    Rec → Except Err (List (String × Nat))
  | [] => .ok dist
  | (field_id, _) :: rest =>
      match fmap.name field_id with
      | none => .error .panicked
      | some field_name => incAllFields fmap (distInc dist field_name) rest

/-- `add_and_merge_original_document` from the source.  On a hit
(`updated = true`): record the id as replaced, fetch the prior record
(`DatabaseMissingEntry` when absent), un-count its fields, and keep the
update verbatim (Replace) or merge prior-then-update (Update).  On a miss:
record `(external id, docid)` in the incremental builder and mark the id
new.  Finally count the fields of the emitted record. -/
def add_and_merge_original_document (documents : List (Nat × Rec))
    (index_documents_method : IndexDocumentsMethod) (fields_ids_map : FieldsIdsMap)
    (updated : Bool) (external_id : String) (docid : Nat) (document : Rec)
    (acc : MergeAcc) : Except Err (Rec × MergeAcc) :=
  if updated then
    match List.lookup docid documents with
    | none => .error .databaseMissingEntry
    | some base_obkv =>
        match decAllFields fields_ids_map acc.dist base_obkv with
        | .error e => .error e
        | .ok dist1 =>
            let obkv :=
              match index_documents_method with
              | .replaceDocuments => document
              | .updateDocuments => merge_two_obkvs base_obkv document
            match incAllFields fields_ids_map dist1 obkv with
            | .error e => .error e
            | .ok dist2 =>
                .ok (obkv, ⟨dist2, insert docid acc.replaced, acc.newIds, acc.builder⟩)
  else
    match incAllFields fields_ids_map acc.dist document with
    | .error e => .error e
    | .ok dist2 =>
        .ok (document, ⟨dist2, acc.replaced, insert docid acc.newIds,
              acc.builder ++ [(external_id, docid)]⟩)

/-! ## Flattening (spec section 4.F) and the finalize loop -/

/-- `serde_json::Map` insertion: sorted by key, the new value replacing an
equal key's value. -/
def mapInsertJ (k : String) (v : Json) : List (String × Json) → List (String × Json)
  | [] => [(k, v)]
  | (k', v') :: rest =>
      if k = k' then (k, v) :: rest
      else if keyLt k k' then (k, v) :: (k', v') :: rest
      else (k', v') :: mapInsertJ k v rest

/-- The document-reconstruction loop of `write_final_sorter`: pair each
field's name (`unwrap`) with its parsed value (`SerdeJson` on malformed
bytes) in a `serde_json::Map`. -/
def buildJsonDoc (fmap : FieldsIdsMap) (acc : List (String × Json)) :
    Rec → Except Err (List (String × Json))
  | [] => .ok acc
  | (k, v) :: rest =>
      match fmap.name k with
      | none => .error .panicked
      | some key =>
          match parseBytes v with
          | none => .error .serdeJson
          | some value => buildJsonDoc fmap (mapInsertJ key value acc) rest

/-- Modelled from the spec (4.F Flattener, the `flatten_serde_json` crate):
dot-join the paths of nested objects; other values stay as they are.  The
fuel argument is any bound on the nesting depth; it only makes the
recursion structural (and hence kernel-evaluable). -/
def flattenFuel : Nat → List (String × Json) → List (String × Json)
  | 0, _ => []
  | _ + 1, [] => []
  | fuel + 1, (k, Json.obj kvs) :: rest =>
      (flattenFuel fuel kvs).map (fun p => (k ++ "." ++ p.1, p.2)) ++
        flattenFuel fuel rest
  | fuel + 1, (k, v) :: rest => (k, v) :: flattenFuel fuel rest

/-- Structural size of a JSON value (an executable measure; it bounds the
nesting depth strictly). -/
def Json.sz : Json → Nat
  | .str _ => 1
  | .num _ => 1
  | .bool _ => 1
  | .null => 1
  | .arr es => 1 + szList es
  | .obj fs => 1 + szObj fs
where
  szList : List Json → Nat
    | [] => 1
    | a :: as => 1 + Json.sz a + szList as
  szObj : List (String × Json) → Nat
    | [] => 1
    | (_, v) :: as => 1 + Json.sz v + szObj as

/-- Dot-join the paths of nested objects (fuelled by the term size, which
bounds the nesting depth). -/
def flattenPairs (l : List (String × Json)) : List (String × Json) :=
  flattenFuel (Json.sz (Json.obj l)) l

/-- Collect flattened pairs into a `serde_json::Map` (sorted keys, later
values overriding). -/
def toJMap (l : List (String × Json)) : List (String × Json) :=
  l.foldl (fun acc p => mapInsertJ p.1 p.2 acc) []

/-- `flatten_serde_json::flatten` on a reconstructed document map. -/
def flattenDoc (doc : List (String × Json)) : List (String × Json) :=
  toJMap (flattenPairs doc)

/-- The flattened re-encoding loop of `write_final_sorter`: register every
flattened key in the fields-ids map (`AttributeLimitReached` when full) and
serialize its value back to bytes. -/
def encodeFlattened (fmap : FieldsIdsMap) :
    List (String × Json) → Except Err (List (Nat × Bytes) × FieldsIdsMap)
  | [] => .ok ([], fmap)
  | (key, value) :: rest =>
      match fmap.insert key with
      | none => .error .attributeLimitReached
      | some (fid, fmap') =>
          match encodeFlattened fmap' rest with
          | .error e => .error e
          | .ok (tail, fmap'') => .ok ((fid, Bytes.wellFormed value) :: tail, fmap'')

/-- The state threaded through the `while` loop of `write_final_sorter`. -/
structure FinState where
  used : Finset Nat
  acc : MergeAcc
  orig : List (Nat × Rec)
  flat : List (Nat × Rec)
  fmap : FieldsIdsMap
  count : Nat
deriving DecidableEq

/-- One iteration of the `write_final_sorter` loop on a drained
`(external id, merged record)` pair: resolve or allocate the internal id,
apply `add_and_merge_original_document`, emit into the original final
sorter, then flatten and emit into the flattened final sorter. -/
def finalizeStep (documents : List (Nat × Rec)) (external0 : List (String × Nat))
    (method : IndexDocumentsMethod) (s : FinState) (kv : String × Rec) :
    Except Err FinState :=
  match (match extGet external0 kv.1 with
         | some docid => Except.ok (docid, true, s.used)
         | none =>
             match availNext s.used with
             | some n => Except.ok (n, false, insert n s.used)
             | none => Except.error Err.documentLimitReached) with
  | .error e => .error e
  | .ok (docid, updated, used') =>
      match add_and_merge_original_document documents method s.fmap updated
          kv.1 docid kv.2 s.acc with
      | .error e => .error e
      | .ok (obkv, acc') =>
          match buildJsonDoc s.fmap [] obkv with
          | .error e => .error e
          | .ok doc =>
              match encodeFlattened s.fmap (flattenDoc doc) with
              | .error e => .error e
              | .ok (pairs, fmap') =>
                  match encodeObkv pairs with
                  | .error e => .error e
                  | .ok buffer =>
                      .ok ⟨used', acc', s.orig ++ [(docid, obkv)],
                            s.flat ++ [(docid, buffer)], fmap', s.count + 1⟩

/-- The `while` loop of `write_final_sorter` over the drained pairs. -/
def foldFinalize (documents : List (Nat × Rec)) (external0 : List (String × Nat))
    (method : IndexDocumentsMethod) :
    FinState → List (String × Rec) → Except Err FinState
  | s, [] => .ok s
  | s, kv :: rest =>
      match finalizeStep documents external0 method s kv with
      | .error e => .error e
      | .ok s' => foldFinalize documents external0 method s' rest

/-- What `write_final_sorter` hands back (its tuple result plus the
states it mutated through `&mut`). -/
structure WriteFinalOut where
  documents_count : Nat
  replaced_documents_ids : Finset Nat
  original_documents : List (Nat × Rec)
  flattened_documents : List (Nat × Rec)
  field_distribution : List (String × Nat)
  fields_ids_map : FieldsIdsMap
  new_documents_ids : Finset Nat
  external_documents_ids : List (String × Nat)
deriving DecidableEq

/-- `write_final_sorter` from the source: drain the external sorter in
ascending external-id order, run the loop, union the incremental builder
into the external-ids map, then write both final sorters (duplicate
internal ids forbidden) out in ascending internal-id order. -/
def write_final_sorter (st : Store) (inserts : List (String × Rec))
    (method : IndexDocumentsMethod) : Except Err WriteFinalOut :=
  match drainSorter (mergeFnOf method) inserts with
  | .error e => .error e
  | .ok drained =>
      match foldFinalize st.documents st.external_documents_ids method
          ⟨st.documents_ids, ⟨st.field_distribution, ∅, ∅, []⟩, [], [],
            st.fields_ids_map, 0⟩ drained with
      | .error e => .error e
      | .ok s =>
          let external' := insert_ids st.external_documents_ids s.acc.builder
          match drainSorterN forbid_duplicates s.orig with
          | .error e => .error e
          | .ok original_documents =>
              match drainSorterN forbid_duplicates s.flat with
              | .error e => .error e
              | .ok flattened_documents =>
                  .ok ⟨s.count, s.acc.replaced, original_documents,
                        flattened_documents, s.acc.dist, s.fmap,
                        s.acc.newIds, external'⟩

/-- `output_from_sorter` from the source: require the primary key persisted
by `read_documents`, run `write_final_sorter`, assemble `TransformOutput`. -/
def output_from_sorter (st : Store) (inserts : List (String × Rec))
    (method : IndexDocumentsMethod) : Except Err TransformOutput :=
  match st.primary_key with
  | none => .error .missingPrimaryKey
  | some primary_key =>
      match write_final_sorter st inserts method with
      | .error e => .error e
      | .ok o =>
          .ok ⟨primary_key, o.fields_ids_map, o.field_distribution,
                o.external_documents_ids, o.new_documents_ids,
                o.replaced_documents_ids, o.documents_count,
                o.original_documents, o.flattened_documents⟩

end Milli

namespace Milli

/-! ## `read_documents` -/

/-- The field-remapping loop of `read_documents`: each batch-local field id
is looked up in the mapping (`mapping.get(&k).unwrap()` — a missing key is
a panic). -/
def remapFields (mapping : List (Nat × Nat)) :
    List (Nat × Bytes) → Except Err (List (Nat × Bytes))
  | [] => .ok []
  | (k, v) :: rest =>
      match List.lookup k mapping with
      | none => .error .panicked
      | some mapped_id =>
          match remapFields mapping rest with
          | .error e => .error e
          | .ok tail => .ok ((mapped_id, v) :: tail)

/-- The body of the `read_documents` document loop: remap the fields,
extract/validate the primary-key value (or autogenerate one with the
supplied uuid), sort by field id and encode.  Returns the external id, the
encoded record, and whether the uuid supply was consumed. -/
def readOneDocument (mapping : List (Nat × Nat)) (primary_key_id : Nat)
    (autogenerate_docids : Bool) (uuid : String) (document : List (Nat × Bytes)) :
    Except Err (String × Rec × Bool) :=
  match remapFields mapping document with
  | .error e => .error e
  | .ok fields =>
      match (match fields.find? (fun p => p.1 = primary_key_id) with
             | some p =>
                 (match parseBytes p.2 with
                  | none => Except.error Err.panicked
                  | some (Json.str s) =>
                      (match validate_document_id s with
                       | some t => Except.ok (t, fields, false)
                       | none => Except.error (Err.invalidDocumentId (Json.str s)))
                  | some (Json.num n) => Except.ok (toString n, fields, false)
                  | some content => Except.error (Err.invalidDocumentId content))
             | none =>
                 if !autogenerate_docids then Except.error Err.missingDocumentId
                 else
                   Except.ok (uuid,
                     fields ++ [(primary_key_id, Bytes.wellFormed (Json.str uuid))],
                     true)) with
      | .error e => .error e
      | .ok (external_id, fields', consumed) =>
          match encodeObkv (sortByKey fields') with
          | .error e => .error e
          | .ok obkv => .ok (external_id, obkv, consumed)

/-- The `read_documents` loop over the batch, feeding autogenerated ids
from the uuid supply and accumulating sorter insertions in order. -/
def readLoop (mapping : List (Nat × Nat)) (primary_key_id : Nat)
    (autogenerate_docids : Bool) (uuids : Nat → String) :
    Nat → List (List (Nat × Bytes)) → List (String × Rec) →
    Except Err (List (String × Rec) × Nat)
  | uctr, [], acc => .ok (acc, uctr)
  | uctr, doc :: docs, acc =>
      match readOneDocument mapping primary_key_id autogenerate_docids
          (uuids uctr) doc with
      | .error e => .error e
      | .ok (ext, obkv, consumed) =>
          readLoop mapping primary_key_id autogenerate_docids uuids
            (if consumed then uctr + 1 else uctr) docs (acc ++ [(ext, obkv)])

/-- The result of `read_documents`: the store with the merged fields map
and persisted primary key, the external sorter's insertions, and the
document count. -/
structure ReadResult where
  store : Store
  inserts : List (String × Rec)
  count : Nat
deriving DecidableEq

/-- `read_documents` from the source.  `uuids` supplies the values of
`uuid::Uuid::new_v4()` (a fresh random identifier per draw in the real
program). -/
def read_documents (st : Store) (batch_index : List (Nat × String))
    (docs : List (List (Nat × Bytes))) (autogenerate_docids : Bool)
    (uuids : Nat → String) : Except Err ReadResult :=
  match create_fields_mapping st.fields_ids_map batch_index with
  | .error e => .error e
  | .ok (mapping, fmap) =>
      match compute_primary_key_pair st.primary_key fmap
          (match st.primary_key with
           | some pk => some pk
           | none => find_primary_key batch_index)
          autogenerate_docids with
      | .error e => .error e
      | .ok (primary_key_id, primary_key_name, fmap') =>
          match readLoop mapping primary_key_id autogenerate_docids uuids
              0 docs [] with
          | .error e => .error e
          | .ok (inserts, _) =>
              .ok ⟨{ st with
                      fields_ids_map := fmap',
                      primary_key := some primary_key_name },
                    inserts, docs.length⟩

/-- The full pipeline of the claims: `read_documents` then
`output_from_sorter`. -/
def transformPipeline (st : Store) (batch_index : List (Nat × String))
    (docs : List (List (Nat × Bytes))) (autogenerate_docids : Bool)
    (uuids : Nat → String) (method : IndexDocumentsMethod) :
    Except Err TransformOutput :=
  match read_documents st batch_index docs autogenerate_docids uuids with
  | .error e => .error e
  | .ok r => output_from_sorter r.store r.inserts method

/-! ## `remap_index_documents` -/

/-- The per-record projection of `remap_index_documents`: walk the new
fields-ids map in ascending id order and keep the fields whose name the
old map knows and the record contains. -/
def remapOne (old_fields_ids_map new_fields_ids_map : FieldsIdsMap)
    (obkv : Rec) : List (Nat × Bytes) :=
  new_fields_ids_map.iterate.filterMap (fun p =>
    match old_fields_ids_map.id p.2 with
    | none => none
    | some oldId => (recGet obkv oldId).map (fun val => (p.1, val)))

/-- The stored-documents loop of `remap_index_documents` (the documents
database iterates in ascending internal-id order). -/
def remapLoop (old_fields_ids_map new_fields_ids_map : FieldsIdsMap) :
    List (Nat × Rec) → Except Err (List (Nat × Rec))
  | [] => .ok []
  | (docid, obkv) :: rest =>
      match encodeObkv (remapOne old_fields_ids_map new_fields_ids_map obkv) with
      | .error e => .error e
      | .ok buffer =>
          match remapLoop old_fields_ids_map new_fields_ids_map rest with
          | .error e => .error e
          | .ok tail => .ok ((docid, buffer) :: tail)

/-- `remap_index_documents` from the source: rewrite every stored record
under the new fields-ids map; the flattened output file is created but
never populated. -/
def remap_index_documents (st : Store)
    (old_fields_ids_map new_fields_ids_map : FieldsIdsMap) :
    Except Err TransformOutput :=
  match st.primary_key with
  | none => .error .missingPrimaryKey
  | some primary_key =>
      match remapLoop old_fields_ids_map new_fields_ids_map
          (sortByKey st.documents) with
      | .error e => .error e
      | .ok original_documents =>
          .ok ⟨primary_key, new_fields_ids_map, st.field_distribution,
                st.external_documents_ids, st.documents_ids, ∅,
                st.documents_ids.card, original_documents, []⟩

end Milli

namespace Milli

/-! ## Helper lemmas on the embedded structures -/

theorem idxOf?_append_self (ns : List String) (name : String)
    (h : idxOf? ns name = none) :
    idxOf? (ns ++ [name]) name = some ns.length := by
  induction ns with
  | nil => simp [idxOf?]
  | cons n ns ih =>
      by_cases hn : n = name
      · simp [idxOf?, hn] at h
      · rw [List.cons_append, idxOf?, if_neg hn]
        rw [idxOf?, if_neg hn] at h
        have h' : idxOf? ns name = none := by
          cases hx : idxOf? ns name <;> simp [hx] at h ⊢
        rw [ih h']
        simp

theorem FieldsIdsMap.insert_id {m m' : FieldsIdsMap} {name : String} {id : Nat}
    (h : m.insert name = some (id, m')) : m'.id name = some id := by
  unfold FieldsIdsMap.insert at h
  cases hid : m.id name with
  | some i =>
      rw [hid] at h
      simp at h
      obtain ⟨rfl, rfl⟩ := h
      exact hid
  | none =>
      rw [hid] at h
      by_cases hlen : m.names.length < 65536
      · rw [if_pos hlen] at h
        simp at h
        obtain ⟨rfl, rfl⟩ := h
        unfold FieldsIdsMap.id at hid ⊢
        exact idxOf?_append_self m.names name hid
      · rw [if_neg hlen] at h
        cases h

theorem mem_insertByKey {α : Type} (x y : Nat × α) (l : List (Nat × α)) :
    y ∈ insertByKey x l ↔ y = x ∨ y ∈ l := by
  induction l with
  | nil => simp [insertByKey]
  | cons z zs ih =>
      by_cases h : z.1 < x.1 <;> simp [insertByKey, h, ih] <;> tauto

theorem sortByKey_cons {α : Type} (y : Nat × α) (l : List (Nat × α)) :
    sortByKey (y :: l) = insertByKey y (sortByKey l) := rfl

theorem mem_sortByKey {α : Type} (x : Nat × α) (l : List (Nat × α)) :
    x ∈ sortByKey l ↔ x ∈ l := by
  induction l with
  | nil => simp [sortByKey]
  | cons y ys ih => rw [sortByKey_cons]; simp [mem_insertByKey, ih]

theorem pairwise_insertByKey {α : Type} (x : Nat × α) (l : List (Nat × α))
    (h : l.Pairwise (fun a b => a.1 ≤ b.1)) :
    (insertByKey x l).Pairwise (fun a b => a.1 ≤ b.1) := by
  induction l with
  | nil => simp [insertByKey]
  | cons y ys ih =>
      rcases List.pairwise_cons.1 h with ⟨hy, hys⟩
      by_cases hlt : y.1 < x.1
      · rw [insertByKey, if_pos hlt]
        refine List.pairwise_cons.2 ⟨?_, ih hys⟩
        intro a ha
        rcases (mem_insertByKey x a ys).1 ha with rfl | ha
        · exact le_of_lt hlt
        · exact hy a ha
      · rw [insertByKey, if_neg hlt]
        refine List.pairwise_cons.2 ⟨?_, h⟩
        intro a ha
        rcases List.mem_cons.1 ha with rfl | ha
        · exact le_of_not_lt hlt
        · exact le_trans (le_of_not_lt hlt) (hy a ha)

theorem pairwise_sortByKey {α : Type} (l : List (Nat × α)) :
    (sortByKey l).Pairwise (fun a b => a.1 ≤ b.1) := by
  induction l with
  | nil => simp [sortByKey]
  | cons y ys ih => rw [sortByKey_cons]; exact pairwise_insertByKey y _ ih

theorem find?_split {α : Type} {p : α → Bool} {l : List α} {a : α}
    (h : l.find? p = some a) :
    ∃ l1 l2, l = l1 ++ a :: l2 ∧ ∀ x ∈ l1, p x = false := by
  induction l with
  | nil => simp [List.find?] at h
  | cons x xs ih =>
      cases hx : p x with
      | true =>
          rw [List.find?_cons_of_pos _ hx] at h
          cases h
          exact ⟨[], xs, rfl, by simp⟩
      | false =>
          rw [List.find?_cons_of_neg _ (by simp [hx])] at h
          rcases ih h with ⟨l1, l2, rfl, hl1⟩
          refine ⟨x :: l1, l2, rfl, ?_⟩
          intro z hz
          rcases List.mem_cons.1 hz with rfl | hz
          · exact hx
          · exact hl1 z hz

theorem mem_insKeyN (x y : Nat) (l : List Nat) :
    y ∈ insKeyN x l ↔ y = x ∨ y ∈ l := by
  induction l with
  | nil => simp [insKeyN]
  | cons z zs ih =>
      by_cases h : x < z <;> simp [insKeyN, h, ih] <;> tauto

theorem mem_sortKeysN (x : Nat) (l : List Nat) :
    x ∈ sortKeysN l ↔ x ∈ l := by
  induction l with
  | nil => simp [sortKeysN]
  | cons y ys ih =>
      have : sortKeysN (y :: ys) = insKeyN y (sortKeysN ys) := rfl
      rw [this]
      simp [mem_insKeyN, ih]

theorem drainKeysN_keys {mergeG : Rec → List Rec → Except Err Rec}
    {ins : List (Nat × Rec)} :
    ∀ {ks : List Nat} {out : List (Nat × Rec)},
      drainKeysN mergeG ins ks = .ok out → ∀ p ∈ out, p.1 ∈ ks := by
  intro ks
  induction ks with
  | nil =>
      intro out h p hp
      simp [drainKeysN] at h
      subst h
      cases hp
  | cons k ks ih =>
      intro out h p hp
      rw [drainKeysN] at h
      split at h
      · cases h
      · split at h
        · cases h
        · split at h
          · cases h
          · rename_i rest hr
            cases h
            rcases List.mem_cons.1 hp with rfl | hp
            · exact List.mem_cons_self _ _
            · exact List.mem_cons_of_mem _ (ih hr p hp)

theorem drainSorterN_keys {mergeG : Rec → List Rec → Except Err Rec}
    {ins : List (Nat × Rec)} {out : List (Nat × Rec)}
    (h : drainSorterN mergeG ins = .ok out) :
    ∀ p ∈ out, p.1 ∈ ins.map (·.1) := by
  intro p hp
  have := drainKeysN_keys h p hp
  rw [mem_sortKeysN] at this
  exact List.mem_dedup.1 this

theorem firstUnused_spec (used : Finset Nat) :
    ∀ (fuel start n : Nat), firstUnused used fuel start = some n →
      n ∉ used ∧ start ≤ n ∧ ∀ m, start ≤ m → m < n → m ∈ used := by
  intro fuel
  induction fuel with
  | zero => intro start n h; simp [firstUnused] at h
  | succ fuel ih =>
      intro start n h
      rw [firstUnused] at h
      by_cases hs : start ∈ used
      · rw [if_pos hs] at h
        rcases ih (start + 1) n h with ⟨h1, h2, h3⟩
        refine ⟨h1, le_trans (Nat.le_succ start) h2, ?_⟩
        intro m hm1 hm2
        rcases Nat.eq_or_lt_of_le hm1 with rfl | hlt
        · exact hs
        · exact h3 m hlt hm2
      · rw [if_neg hs] at h
        cases h
        exact ⟨hs, le_refl _,
          fun m hm1 hm2 => absurd (lt_of_le_of_lt hm1 hm2) (lt_irrefl _)⟩

theorem availNext_spec {used : Finset Nat} {n : Nat}
    (h : availNext used = some n) : n ∉ used ∧ ∀ m, m < n → m ∈ used := by
  unfold availNext at h
  split at h
  · rename_i k hf
    by_cases hk : k < 4294967296
    · rw [if_pos hk] at h
      cases h
      rcases firstUnused_spec used _ 0 n hf with ⟨h1, _, h3⟩
      exact ⟨h1, fun m hm => h3 m (Nat.zero_le m) hm⟩
    · rw [if_neg hk] at h
      cases h
  · cases h

end Milli

namespace Milli

/-! ## Concrete fixtures used by witnesses -/

/-- The empty store. -/
def store0 : Store := ⟨⟨[]⟩, none, [], ∅, [], []⟩

/-- A small populated store: one stored document `{id:"a", t:"x"}` under
internal id 7, external id `"a"`. -/
def storeA : Store :=
  ⟨⟨["id", "t"]⟩, some "id",
    [(7, [(0, Bytes.wellFormed (Json.str "a")), (1, Bytes.wellFormed (Json.str "x"))])],
    {7}, [("id", 1), ("t", 1)], [("a", 7)]⟩

/-! ## C9 -/

/-- C9: `remap_index_documents` returns a `TransformOutput` in which
`new_documents_ids` equals the full set of currently stored internal ids,
`replaced_documents_ids` is empty, `documents_count` equals the number of
stored documents, and the flattened-documents file is empty, regardless of
the store's contents. -/
theorem C9_remap_output (st : Store) (oldMap newMap : FieldsIdsMap)
    (out : TransformOutput)
    (h : remap_index_documents st oldMap newMap = .ok out) :
    out.new_documents_ids = st.documents_ids ∧
    out.replaced_documents_ids = ∅ ∧
    out.documents_count = st.documents_ids.card ∧
    out.flattened_documents = [] := by
  unfold remap_index_documents at h
  split at h
  · cases h
  · split at h
    · cases h
    · cases h
      exact ⟨rfl, rfl, rfl, rfl⟩

/-- Witness for C9 on a concrete store with one stored document and a
permuted registry. -/
theorem C9_remap_output_witness :
    (⟨"id", ⟨["t", "id"]⟩, [("id", 1), ("t", 1)], [("a", 7)], {7}, ∅, 1,
        [(7, [(0, Bytes.wellFormed (Json.str "x")),
              (1, Bytes.wellFormed (Json.str "a"))])], []⟩ :
        TransformOutput).new_documents_ids = storeA.documents_ids ∧
    (⟨"id", ⟨["t", "id"]⟩, [("id", 1), ("t", 1)], [("a", 7)], {7}, ∅, 1,
        [(7, [(0, Bytes.wellFormed (Json.str "x")),
              (1, Bytes.wellFormed (Json.str "a"))])], []⟩ :
        TransformOutput).replaced_documents_ids = ∅ ∧
    (⟨"id", ⟨["t", "id"]⟩, [("id", 1), ("t", 1)], [("a", 7)], {7}, ∅, 1,
        [(7, [(0, Bytes.wellFormed (Json.str "x")),
              (1, Bytes.wellFormed (Json.str "a"))])], []⟩ :
        TransformOutput).documents_count = storeA.documents_ids.card ∧
    (⟨"id", ⟨["t", "id"]⟩, [("id", 1), ("t", 1)], [("a", 7)], {7}, ∅, 1,
        [(7, [(0, Bytes.wellFormed (Json.str "x")),
              (1, Bytes.wellFormed (Json.str "a"))])], []⟩ :
        TransformOutput).flattened_documents = [] :=
  C9_remap_output storeA ⟨["id", "t"]⟩ ⟨["t", "id"]⟩ _ (by decide)

theorem lookup_cons_self {α β : Type} [BEq α] [LawfulBEq α] (k : α) (b : β)
    (l : List (α × β)) : List.lookup k ((k, b) :: l) = some b := by
  simp [List.lookup]

theorem lookup_cons_ne {α β : Type} [BEq α] [LawfulBEq α] {k f : α} (b : β)
    (l : List (α × β)) (h : ¬k = f) :
    List.lookup k ((f, b) :: l) = List.lookup k l := by
  have hb : (k == f) = false := beq_eq_false_iff_ne.2 h
  simp [List.lookup, hb]

/-! ## C10 -/

theorem create_fields_mapping_go_lookup :
    ∀ (l : List (Nat × String)) (m : FieldsIdsMap) (mp : List (Nat × Nat))
      (m' : FieldsIdsMap),
      create_fields_mapping.go l m = .ok (mp, m') →
      ∀ k n, (k, n) ∈ l → ∃ id, List.lookup k mp = some id := by
  intro l
  induction l with
  | nil => intro m mp m' h k n hk; cases hk
  | cons p rest ih =>
      rcases p with ⟨field, name⟩
      intro m mp m' h k n hk
      rw [create_fields_mapping.go] at h
      split at h
      next id hid =>
        split at h
        next => cases h
        next tail m2 hgo =>
          cases h
          by_cases hkf : k = field
          · subst hkf
            exact ⟨id, lookup_cons_self k id tail⟩
          · rcases List.mem_cons.1 hk with heq | hk
            · cases heq; exact absurd rfl hkf
            · rcases ih m tail _ hgo k n hk with ⟨i, hi⟩
              exact ⟨i, by rw [lookup_cons_ne id tail hkf]; exact hi⟩
      next hid =>
        split at h
        next => cases h
        next id mIns hins =>
          split at h
          next => cases h
          next tail m2 hgo =>
            cases h
            by_cases hkf : k = field
            · subst hkf
              exact ⟨id, lookup_cons_self k id tail⟩
            · rcases List.mem_cons.1 hk with heq | hk
              · cases heq; exact absurd rfl hkf
              · rcases ih mIns tail _ hgo k n hk with ⟨i, hi⟩
                exact ⟨i, by rw [lookup_cons_ne id tail hkf]; exact hi⟩

/-- C10: if `create_fields_mapping` succeeds, the mapping it returns is
defined on every local field id of the batch field map, so the
`mapping.get(&k).unwrap()` lookup that `read_documents` performs for a
record whose field ids all occur in the batch field map can never panic:
the whole remapping loop succeeds. -/
theorem C10_field_mapping_total (index_map : FieldsIdsMap)
    (bm : List (Nat × String)) (mapping : List (Nat × Nat))
    (fm' : FieldsIdsMap)
    (h : create_fields_mapping index_map bm = .ok (mapping, fm')) :
    (∀ k, (∃ n, (k, n) ∈ bm) → ∃ id, List.lookup k mapping = some id) ∧
    ∀ doc : List (Nat × Bytes),
      (∀ kv ∈ doc, ∃ n, (kv.1, n) ∈ bm) →
      ∃ fs, remapFields mapping doc = .ok fs := by
  have hdom : ∀ k, (∃ n, (k, n) ∈ bm) → ∃ id, List.lookup k mapping = some id := by
    intro k hk
    rcases hk with ⟨n, hn⟩
    exact create_fields_mapping_go_lookup (sortByKey bm) index_map mapping fm' h
      k n ((mem_sortByKey (k, n) bm).2 hn)
  refine ⟨hdom, ?_⟩
  intro doc
  induction doc with
  | nil => intro _; exact ⟨[], rfl⟩
  | cons kv rest ih =>
      intro hall
      rcases kv with ⟨k, v⟩
      rcases hdom k (hall (k, v) (List.mem_cons_self _ _)) with ⟨id, hid⟩
      rcases ih (fun p hp => hall p (List.mem_cons_of_mem _ hp)) with ⟨fs, hfs⟩
      exact ⟨(id, v) :: fs, by simp only [remapFields, hid, hfs]⟩

/-- Witness for C10 on a concrete batch field map and document. -/
theorem C10_field_mapping_total_witness :
    (∃ id, List.lookup 3 [(3, 0)] = some id) ∧
    ∃ fs, remapFields [(3, 0)]
        [(3, Bytes.wellFormed (Json.str "a"))] = .ok fs :=
  have h := C10_field_mapping_total ⟨[]⟩ [(3, "id")] [(3, 0)] ⟨["id"]⟩ (by decide)
  ⟨h.1 3 ⟨"id", by decide⟩,
    h.2 [(3, Bytes.wellFormed (Json.str "a"))]
      (by intro kv hkv; cases hkv with
          | head => exact ⟨"id", by decide⟩
          | tail _ hh => cases hh)⟩

end Milli

namespace Milli

/-! ## C3 -/

theorem validate_cases (s : String) :
    (((trimStr s).data ≠ [] ∧ ∀ c ∈ (trimStr s).data, isValidIdChar c) →
      validate_document_id s = some (trimStr s)) ∧
    (¬((trimStr s).data ≠ [] ∧ ∀ c ∈ (trimStr s).data, isValidIdChar c) →
      validate_document_id s = none) := by
  unfold validate_document_id
  by_cases hc : (trimStr s).data ≠ [] ∧ ∀ c ∈ (trimStr s).data, isValidIdChar c
  · have hb : (!(trimStr s).data.isEmpty && (trimStr s).data.all isValidIdChar)
        = true := by
      rcases hc with ⟨h1, h2⟩
      simp [List.isEmpty_iff, h1, List.all_eq_true]
      exact h2
    rw [if_pos hb]
    exact ⟨fun _ => rfl, fun hn => absurd hc hn⟩
  · have hb : ¬((!(trimStr s).data.isEmpty && (trimStr s).data.all isValidIdChar)
        = true) := by
      intro hcon
      apply hc
      simp [List.isEmpty_iff, List.all_eq_true] at hcon
      exact hcon
    rw [if_neg hb]
    exact ⟨fun hyes => absurd hyes hc, fun _ => rfl⟩

/-- C3: the handling of the primary-key value.  A JSON string is accepted
exactly when its trimmed form is non-empty and drawn from
`[A-Za-z0-9_-]`, the trimmed form becoming the external id; a JSON number
is accepted as its decimal rendering; any other JSON shape is an
`InvalidDocumentId` error, and such a per-document error aborts
`read_documents` with that error. -/
theorem C3_document_id_validation (mapping : List (Nat × Nat)) (pkId : Nat)
    (ag : Bool) (uuid : String) (doc : List (Nat × Bytes))
    (fields : List (Nat × Bytes)) (pr : Nat × Bytes) (r : Rec)
    (hremap : remapFields mapping doc = .ok fields)
    (hfind : fields.find? (fun p => p.1 = pkId) = some pr)
    (henc : encodeObkv (sortByKey fields) = .ok r) :
    (∀ s : String, pr.2 = Bytes.wellFormed (Json.str s) →
        ((((trimStr s).data ≠ [] ∧ ∀ c ∈ (trimStr s).data, isValidIdChar c) →
            readOneDocument mapping pkId ag uuid doc = .ok (trimStr s, r, false)) ∧
         (¬((trimStr s).data ≠ [] ∧ ∀ c ∈ (trimStr s).data, isValidIdChar c) →
            readOneDocument mapping pkId ag uuid doc =
              .error (.invalidDocumentId (Json.str s))))) ∧
    (∀ n : Int, pr.2 = Bytes.wellFormed (Json.num n) →
        readOneDocument mapping pkId ag uuid doc = .ok (toString n, r, false)) ∧
    (∀ v : Json, pr.2 = Bytes.wellFormed v → (∀ s, v ≠ Json.str s) →
        (∀ n, v ≠ Json.num n) →
        readOneDocument mapping pkId ag uuid doc =
          .error (.invalidDocumentId v)) ∧
    (∀ (mp : List (Nat × Nat)) (pk : Nat) (ag' : Bool) (uuids : Nat → String)
        (uctr : Nat) (d : List (Nat × Bytes)) (rest : List (List (Nat × Bytes)))
        (acc : List (String × Rec)) (e : Err),
        readOneDocument mp pk ag' (uuids uctr) d = .error e →
        readLoop mp pk ag' uuids uctr (d :: rest) acc = .error e) ∧
    (∀ (st : Store) (bm : List (Nat × String)) (docs : List (List (Nat × Bytes)))
        (ag' : Bool) (uuids : Nat → String) (mp : List (Nat × Nat))
        (fm1 : FieldsIdsMap) (pk : Nat) (nm : String) (fm2 : FieldsIdsMap)
        (e : Err),
        create_fields_mapping st.fields_ids_map bm = .ok (mp, fm1) →
        compute_primary_key_pair st.primary_key fm1
          (match st.primary_key with
           | some pk0 => some pk0
           | none => find_primary_key bm) ag' = .ok (pk, nm, fm2) →
        readLoop mp pk ag' uuids 0 docs [] = .error e →
        read_documents st bm docs ag' uuids = .error e) := by
  refine ⟨?_, ?_, ?_, ?_, ?_⟩
  · intro s hs
    have hv := validate_cases s
    constructor
    · intro hcond
      simp only [readOneDocument, hremap, hfind, hs, parseBytes, hv.1 hcond, henc]
    · intro hcond
      simp only [readOneDocument, hremap, hfind, hs, parseBytes, hv.2 hcond]
  · intro n hn
    simp only [readOneDocument, hremap, hfind, hn, parseBytes, henc]
  · intro v hv hs hn
    cases v with
    | str s => exact absurd rfl (hs s)
    | num n => exact absurd rfl (hn n)
    | bool b => simp only [readOneDocument, hremap, hfind, hv, parseBytes]
    | null => simp only [readOneDocument, hremap, hfind, hv, parseBytes]
    | arr xs => simp only [readOneDocument, hremap, hfind, hv, parseBytes]
    | obj xs => simp only [readOneDocument, hremap, hfind, hv, parseBytes]
  · intro mp pk ag' uuids uctr d rest acc e he
    simp only [readLoop, he]
  · intro st bm docs ag' uuids mp fm1 pk nm fm2 e h1 h2 h3
    simp only [read_documents, h1, h2, h3]

/-- Witness for C3: a concrete document whose primary-key value carries
surrounding whitespace. -/
theorem C3_document_id_validation_witness :
    readOneDocument [(0, 0)] 0 false "u"
        [(0, Bytes.wellFormed (Json.str " a_B-9 "))] =
      .ok (trimStr " a_B-9 ", [(0, Bytes.wellFormed (Json.str " a_B-9 "))],
           false) :=
  ((C3_document_id_validation [(0, 0)] 0 false "u"
      [(0, Bytes.wellFormed (Json.str " a_B-9 "))]
      [(0, Bytes.wellFormed (Json.str " a_B-9 "))]
      (0, Bytes.wellFormed (Json.str " a_B-9 "))
      [(0, Bytes.wellFormed (Json.str " a_B-9 "))]
      (by decide) (by decide) (by decide)).1 " a_B-9 " rfl).1 (by decide)

end Milli

namespace Milli

/-! ## C2 -/

theorem find_primary_key_spec {bm : List (Nat × String)} {name : String}
    (h : find_primary_key bm = some name) :
    hasSub (lowerStr name) "id" = true ∧
    ∃ i, (i, name) ∈ bm ∧
      ∀ j m, (j, m) ∈ bm → j < i → hasSub (lowerStr m) "id" = false := by
  unfold find_primary_key at h
  rw [List.find?_map] at h
  rcases Option.map_eq_some'.1 h with ⟨pr, hfind, hpr⟩
  have hp := List.find?_some hfind
  rcases find?_split hfind with ⟨l1, l2, hsplit, hl1⟩
  have hpw := pairwise_sortByKey bm
  rw [hsplit] at hpw
  subst hpr
  refine ⟨by simpa using hp, pr.1, ?_, ?_⟩
  · have : pr ∈ sortByKey bm := by
      rw [hsplit]
      exact List.mem_append.2 (Or.inr (List.mem_cons_self _ _))
    exact (mem_sortByKey pr bm).1 this
  · intro j m hjm hj
    have hmem : (j, m) ∈ l1 ++ pr :: l2 := by
      rw [← hsplit]
      exact (mem_sortByKey (j, m) bm).2 hjm
    rcases List.mem_append.1 hmem with h1 | h2
    · have := hl1 (j, m) h1
      simpa using this
    · rcases List.mem_cons.1 h2 with heq | h2
      · exfalso
        have : j = pr.1 := congrArg Prod.fst heq
        omega
      · exfalso
        have hsub : (pr :: l2).Pairwise (fun a b => a.1 ≤ b.1) :=
          List.Pairwise.sublist (List.sublist_append_right l1 (pr :: l2)) hpw
        have := (List.pairwise_cons.1 hsub).1 (j, m) h2
        simp at this
        omega

/-- C2: primary-key resolution priority.  (1) a stored primary key is used
and registered; (2) otherwise the first batch field name in ascending
local-id order whose lowercased form contains `"id"` is selected by
`find_primary_key`, and is registered and used when passed as the
alternative name; (3) otherwise with autogenerate on, the constant `"id"`
is registered and used; (4) otherwise `MissingPrimaryKey`. -/
theorem C2_primary_key_resolution :
    (∀ (pk : String) (fmap : FieldsIdsMap) (alt : Option String) (ag : Bool)
        (id : Nat) (nm : String) (m' : FieldsIdsMap),
        compute_primary_key_pair (some pk) fmap alt ag = .ok (id, nm, m') →
        nm = pk ∧ m'.id pk = some id) ∧
    (∀ (fmap : FieldsIdsMap) (bm : List (Nat × String)) (ag : Bool)
        (name : String),
        find_primary_key bm = some name →
        (∀ id nm m',
            compute_primary_key_pair none fmap (find_primary_key bm) ag
              = .ok (id, nm, m') →
            nm = name ∧ m'.id name = some id) ∧
        hasSub (lowerStr name) "id" = true ∧
        ∃ i, (i, name) ∈ bm ∧
          ∀ j m, (j, m) ∈ bm → j < i → hasSub (lowerStr m) "id" = false) ∧
    (∀ (fmap : FieldsIdsMap) (id : Nat) (nm : String) (m' : FieldsIdsMap),
        compute_primary_key_pair none fmap none true = .ok (id, nm, m') →
        nm = "id" ∧ m'.id "id" = some id) ∧
    (∀ fmap : FieldsIdsMap,
        compute_primary_key_pair none fmap none false =
          .error .missingPrimaryKey) := by
  refine ⟨?_, ?_, ?_, ?_⟩
  · intro pk fmap alt ag id nm m' h
    simp only [compute_primary_key_pair] at h
    cases hins : fmap.insert pk with
    | none => rw [hins] at h; cases h
    | some pr =>
        rcases pr with ⟨id2, m2⟩
        rw [hins] at h
        cases h
        exact ⟨rfl, FieldsIdsMap.insert_id hins⟩
  · intro fmap bm ag name hfind
    rcases find_primary_key_spec hfind with ⟨hsub, i, hmem, hmin⟩
    refine ⟨?_, hsub, i, hmem, hmin⟩
    intro id nm m' h
    rw [hfind] at h
    simp only [compute_primary_key_pair] at h
    cases hins : fmap.insert name with
    | none => rw [hins] at h; cases h
    | some pr =>
        rcases pr with ⟨id2, m2⟩
        rw [hins] at h
        cases h
        exact ⟨rfl, FieldsIdsMap.insert_id hins⟩
  · intro fmap id nm m' h
    simp only [compute_primary_key_pair] at h
    rw [if_neg (by decide)] at h
    cases hins : fmap.insert "id" with
    | none => rw [hins] at h; cases h
    | some pr =>
        rcases pr with ⟨id2, m2⟩
        rw [hins] at h
        cases h
        exact ⟨rfl, FieldsIdsMap.insert_id hins⟩
  · intro fmap
    rfl

/-- Witness for C2 on a concrete batch: `"uid"` is inferred and
registered. -/
theorem C2_primary_key_resolution_witness :
    ("uid" = "uid" ∧ (⟨["uid"]⟩ : FieldsIdsMap).id "uid" = some 0) ∧
    hasSub (lowerStr "uid") "id" = true ∧
    ∃ i, (i, "uid") ∈ [(0, "x"), (1, "uid")] ∧
      ∀ j m, (j, m) ∈ [(0, "x"), (1, "uid")] → j < i →
        hasSub (lowerStr m) "id" = false :=
  have h := C2_primary_key_resolution.2.1 ⟨[]⟩ [(0, "x"), (1, "uid")] false
    "uid" (by decide)
  ⟨h.1 0 "uid" ⟨["uid"]⟩ (by decide), h.2.1, h.2.2⟩

end Milli

namespace Milli

/-! ## C8 -/

theorem incAllFields_ok (fmap : FieldsIdsMap) :
    ∀ (r : Rec) (d : List (String × Nat)),
      (∀ p ∈ r, (fmap.name p.1).isSome) →
      ∃ d', incAllFields fmap d r = .ok d' := by
  intro r
  induction r with
  | nil => intro d _; exact ⟨d, rfl⟩
  | cons p rest ih =>
      intro d hall
      rcases p with ⟨fid, v⟩
      have hname := hall (fid, v) (List.mem_cons_self _ _)
      rcases Option.isSome_iff_exists.1 hname with ⟨nm, hnm⟩
      rcases ih (distInc d nm) (fun q hq => hall q (List.mem_cons_of_mem _ hq))
        with ⟨d', hd'⟩
      exact ⟨d', by simp only [incAllFields, hnm, hd']⟩

theorem buildJsonDoc_serde (fmap : FieldsIdsMap) :
    ∀ (r : Rec) (acc : List (String × Json)),
      (∀ p ∈ r, (fmap.name p.1).isSome) →
      (∃ p ∈ r, parseBytes p.2 = none) →
      buildJsonDoc fmap acc r = .error .serdeJson := by
  intro r
  induction r with
  | nil => intro acc _ hmal; rcases hmal with ⟨p, hp, _⟩; cases hp
  | cons p rest ih =>
      intro acc hall hmal
      rcases p with ⟨fid, v⟩
      have hname := hall (fid, v) (List.mem_cons_self _ _)
      rcases Option.isSome_iff_exists.1 hname with ⟨nm, hnm⟩
      cases hv : parseBytes v with
      | none => simp only [buildJsonDoc, hnm, hv]
      | some value =>
          have hmal' : ∃ q ∈ rest, parseBytes q.2 = none := by
            rcases hmal with ⟨q, hq, hqm⟩
            rcases List.mem_cons.1 hq with rfl | hq
            · rw [hv] at hqm; cases hqm
            · exact ⟨q, hq, hqm⟩
          simp only [buildJsonDoc, hnm, hv]
          exact ih _ (fun q hq => hall q (List.mem_cons_of_mem _ hq)) hmal'

/-- C8 counterexample: malformed primary-key bytes make `read_documents`
panic (the source calls `serde_json::from_slice(bytes).unwrap()`), rather
than return the `SerdeJson` error the claim promises. -/
theorem C8_read_documents_panics :
    read_documents store0 [(0, "id")] [[(0, Bytes.malformed 0)]] false
        (fun _ => "u") = .error .panicked ∧
    Err.panicked ≠ Err.serdeJson := by decide

/-- C8 amended: the parse the finalize stage performs (reconstructing each
emitted document to flatten it) does return `SerdeJson` on malformed value
bytes: a fresh (miss) document whose record contains malformed bytes makes
`finalizeStep` fail with `SerdeJson`, provided every field id has a name. -/
theorem C8_finalize_serde_json (documents : List (Nat × Rec))
    (external0 : List (String × Nat)) (method : IndexDocumentsMethod)
    (s : FinState) (ext : String) (rec : Rec) (n : Nat)
    (hmiss : extGet external0 ext = none)
    (halloc : availNext s.used = some n)
    (hnames : ∀ p ∈ rec, (s.fmap.name p.1).isSome)
    (hmal : ∃ p ∈ rec, parseBytes p.2 = none) :
    finalizeStep documents external0 method s (ext, rec) = .error .serdeJson := by
  rcases incAllFields_ok s.fmap rec s.acc.dist hnames with ⟨d', hd'⟩
  have hadd : add_and_merge_original_document documents method s.fmap false
      ext n rec s.acc =
      .ok (rec, ⟨d', s.acc.replaced, insert n s.acc.newIds,
            s.acc.builder ++ [(ext, n)]⟩) := by
    simp only [add_and_merge_original_document, Bool.false_eq_true, if_false,
      hd']
  have hdoc := buildJsonDoc_serde s.fmap rec [] hnames hmal
  simp only [finalizeStep, hmiss, halloc, hadd, hdoc]

/-- Witness for the C8 amended theorem at a concrete malformed record. -/
theorem C8_finalize_serde_json_witness :
    finalizeStep [] [] .replaceDocuments
        ⟨∅, ⟨[], ∅, ∅, []⟩, [], [], ⟨["id"]⟩, 0⟩
        ("a", [(0, Bytes.malformed 5)]) = .error .serdeJson :=
  C8_finalize_serde_json [] [] .replaceDocuments
    ⟨∅, ⟨[], ∅, ∅, []⟩, [], [], ⟨["id"]⟩, 0⟩ "a" [(0, Bytes.malformed 5)] 0
    (by decide) (by decide) (by decide)
    ⟨(0, Bytes.malformed 5), by decide, rfl⟩

/-! ## C5 -/

/-- C5: evaluating `read_documents` at the failing input
`{"id": " a "}`: the normalized external id (the sorter key) is `"a"`,
but the emitted record still carries the original bytes `" a "` at the
primary-key field, so the stored value does not decode to the external
id.  (The source validates and trims the id but never writes the
normalized value back into the document, although its comment says it
updates it.) -/
theorem C5_roundtrip_failure :
    read_documents store0 [(0, "id")]
        [[(0, Bytes.wellFormed (Json.str " a "))]] false (fun _ => "u") =
      .ok ⟨⟨⟨["id"]⟩, some "id", [], ∅, [], []⟩,
            [("a", [(0, Bytes.wellFormed (Json.str " a "))])], 1⟩ ∧
    Json.str " a " ≠ Json.str "a" := by decide

end Milli

namespace Milli

/-! ## C7 -/

/-- C7 counterexample: on an empty store with autogeneration off, a
0-document batch does not complete: primary-key resolution fails with
`MissingPrimaryKey` (there is nothing to resolve it from), contradicting
the claim that the pipeline completes without error. -/
theorem C7_empty_batch_errors :
    transformPipeline store0 [] [] false (fun _ => "u") .replaceDocuments =
      .error .missingPrimaryKey := by decide

/-- C7 amended: whenever the pipeline completes on a 0-document batch (in
particular whenever a primary key is resolvable), it yields
`documents_count = 0`, empty new/replaced bitmaps and two empty output
streams. -/
theorem C7_empty_batch_output (st : Store) (bm : List (Nat × String))
    (ag : Bool) (uuids : Nat → String) (method : IndexDocumentsMethod)
    (out : TransformOutput)
    (h : transformPipeline st bm [] ag uuids method = .ok out) :
    out.documents_count = 0 ∧ out.new_documents_ids = ∅ ∧
    out.replaced_documents_ids = ∅ ∧ out.original_documents = [] ∧
    out.flattened_documents = [] := by
  unfold transformPipeline at h
  cases hr : read_documents st bm [] ag uuids with
  | error e => rw [hr] at h; cases h
  | ok r =>
      rw [hr] at h
      unfold read_documents at hr
      split at hr
      next => cases hr
      next mapping fmap hcf =>
        split at hr
        next => cases hr
        next pkid nm fmap2 hcp =>
          cases hr
          unfold output_from_sorter at h
          dsimp only at h
          have hw : write_final_sorter
              { st with fields_ids_map := fmap2, primary_key := some nm }
              ([] : List (String × Rec)) method =
              .ok ⟨0, ∅, [], [], st.field_distribution, fmap2, ∅,
                    insert_ids st.external_documents_ids []⟩ := rfl
          rw [hw] at h
          cases h
          exact ⟨rfl, rfl, rfl, rfl, rfl⟩

/-- Witness for the C7 amended theorem: a store that already has a primary
key ingests the empty batch successfully. -/
theorem C7_empty_batch_output_witness :
    (⟨"id", ⟨["id", "t"]⟩, [("id", 1), ("t", 1)], [("a", 7)], ∅, ∅, 0, [],
        []⟩ : TransformOutput).documents_count = 0 ∧
    (⟨"id", ⟨["id", "t"]⟩, [("id", 1), ("t", 1)], [("a", 7)], ∅, ∅, 0, [],
        []⟩ : TransformOutput).new_documents_ids = ∅ ∧
    (⟨"id", ⟨["id", "t"]⟩, [("id", 1), ("t", 1)], [("a", 7)], ∅, ∅, 0, [],
        []⟩ : TransformOutput).replaced_documents_ids = ∅ ∧
    (⟨"id", ⟨["id", "t"]⟩, [("id", 1), ("t", 1)], [("a", 7)], ∅, ∅, 0, [],
        []⟩ : TransformOutput).original_documents = [] ∧
    (⟨"id", ⟨["id", "t"]⟩, [("id", 1), ("t", 1)], [("a", 7)], ∅, ∅, 0, [],
        []⟩ : TransformOutput).flattened_documents = [] :=
  C7_empty_batch_output storeA [] false (fun _ => "u") .replaceDocuments _
    (by decide)

/-! ## C6 -/

/-- C6 counterexample: with autogeneration on and a document lacking the
primary-key field, two runs on the same batch, registry and used-id set
diverge when the random uuid draws differ, so the outputs are not
byte-identical. -/
theorem C6_uuid_nondeterminism :
    transformPipeline store0 [] [[]] true (fun _ => "aa")
        .replaceDocuments ≠
      transformPipeline store0 [] [[]] true (fun _ => "bb")
        .replaceDocuments := by decide

theorem readOne_nouuid (mp : List (Nat × Nat)) (pk : Nat) (ua ub : String)
    (d : List (Nat × Bytes)) :
    readOneDocument mp pk false ua d = readOneDocument mp pk false ub d := rfl

theorem readLoop_nouuid (mp : List (Nat × Nat)) (pk : Nat)
    (u1 u2 : Nat → String) :
    ∀ (docs : List (List (Nat × Bytes))) (c : Nat)
      (acc : List (String × Rec)),
      readLoop mp pk false u1 c docs acc = readLoop mp pk false u2 c docs acc := by
  intro docs
  induction docs with
  | nil => intro c acc; rfl
  | cons d rest ih =>
      intro c acc
      simp only [readLoop]
      rw [readOne_nouuid mp pk (u1 c) (u2 c) d]
      cases hro : readOneDocument mp pk false (u2 c) d with
      | error e => rfl
      | ok t =>
          rcases t with ⟨ext, obkv, consumed⟩
          simp only [hro]
          exact ih _ _

/-- C6 amended: with `autogenerate_docids = false` (so no random uuid is
ever drawn), the pipeline is a deterministic function of the batch, the
starting registry and the starting used-id set: two runs produce
identical results, output streams included, whatever uuid sources they
carry. -/
theorem C6_pipeline_deterministic (st : Store) (bm : List (Nat × String))
    (docs : List (List (Nat × Bytes))) (u1 u2 : Nat → String)
    (method : IndexDocumentsMethod) :
    transformPipeline st bm docs false u1 method =
      transformPipeline st bm docs false u2 method := by
  have hrd : read_documents st bm docs false u1 =
      read_documents st bm docs false u2 := by
    unfold read_documents
    cases hcf : create_fields_mapping st.fields_ids_map bm with
    | error e => rfl
    | ok pr =>
        rcases pr with ⟨mapping, fm1⟩
        cases hcp : compute_primary_key_pair st.primary_key fm1
            (match st.primary_key with
             | some pk => some pk
             | none => find_primary_key bm) false with
        | error e => simp only [hcp]
        | ok tr =>
            rcases tr with ⟨pkid, nm, fm2⟩
            simp only [hcp]
            rw [readLoop_nouuid mapping pkid u1 u2 docs 0 []]
  unfold transformPipeline
  rw [hrd]

end Milli

namespace Milli

/-! ## C1 support: merge lookup semantics -/

theorem lookup_eq_none {α β : Type} [BEq α] [LawfulBEq α] {l : List (α × β)}
    {k : α} (h : ∀ p ∈ l, ¬p.1 = k) : List.lookup k l = none := by
  induction l with
  | nil => rfl
  | cons p rest ih =>
      rcases p with ⟨a, b⟩
      have hne : ¬k = a := fun he => h (a, b) (List.mem_cons_self _ _) he.symm
      rw [lookup_cons_ne b rest hne]
      exact ih (fun q hq => h q (List.mem_cons_of_mem _ hq))

/-- Keys strictly ascending (the obkv on-disk invariant). -/
def keysSorted (r : Rec) : Prop := r.Pairwise (fun x y => x.1 < y.1)

theorem merge_two_obkvs_lookup :
    (a b : Rec) → keysSorted a → keysSorted b →
    ∀ k, recGet (merge_two_obkvs a b) k = (recGet b k).or (recGet a k)
  | [], b, _, _, k => by
      simp only [merge_two_obkvs, recGet, List.lookup, Option.or_none]
  | (x :: xs), [], ha, _, k => by
      simp only [merge_two_obkvs, recGet, List.lookup, Option.none_or]
  | (k1, v1) :: old, (k2, v2) :: new, ha, hb, k => by
      have haold : keysSorted old := (List.pairwise_cons.1 ha).2
      have hbnew : keysSorted new := (List.pairwise_cons.1 hb).2
      rw [merge_two_obkvs]
      by_cases h12 : k1 < k2
      · rw [if_pos h12]
        by_cases hk : k = k1
        · subst hk
          have hbnone : List.lookup k ((k2, v2) :: new) = none := by
            apply lookup_eq_none
            intro p hp
            rcases List.mem_cons.1 hp with rfl | hp
            · exact fun he => absurd (he ▸ h12) (lt_irrefl _)
            · have := (List.pairwise_cons.1 hb).1 p hp
              intro he
              rw [he] at this
              exact absurd (lt_trans h12 this) (lt_irrefl _)
          simp only [recGet] at hbnone ⊢
          rw [lookup_cons_self, hbnone, Option.none_or, lookup_cons_self]
        · have ih := merge_two_obkvs_lookup old ((k2, v2) :: new) haold hb k
          simp only [recGet] at ih ⊢
          rw [lookup_cons_ne _ _ hk, ih, lookup_cons_ne _ _ hk]
      · rw [if_neg h12]
        by_cases h21 : k2 < k1
        · rw [if_pos h21]
          by_cases hk : k = k2
          · subst hk
            simp only [recGet]
            rw [lookup_cons_self, lookup_cons_self]
            rfl
          · have ih := merge_two_obkvs_lookup ((k1, v1) :: old) new ha hbnew k
            simp only [recGet] at ih ⊢
            rw [lookup_cons_ne _ _ hk, ih, lookup_cons_ne _ _ hk]
        · have hkk : k1 = k2 := le_antisymm (not_lt.1 h21) (not_lt.1 h12)
          subst hkk
          rw [if_neg h21]
          by_cases hk : k = k1
          · subst hk
            simp only [recGet]
            rw [lookup_cons_self, lookup_cons_self, lookup_cons_self]
            rfl
          · have ih := merge_two_obkvs_lookup old new haold hbnew k
            simp only [recGet] at ih ⊢
            rw [lookup_cons_ne _ _ hk, ih, lookup_cons_ne _ _ hk,
              lookup_cons_ne _ _ hk]
termination_by a b => a.length + b.length

end Milli

namespace Milli

/-! ## C1 support: field-distribution semantics -/

theorem lookup_append {α β : Type} [BEq α] [LawfulBEq α] (k : α)
    (l1 l2 : List (α × β)) :
    List.lookup k (l1 ++ l2) = (List.lookup k l1).or (List.lookup k l2) := by
  induction l1 with
  | nil => simp [List.lookup, Option.none_or]
  | cons p rest ih =>
      rcases p with ⟨a, b⟩
      by_cases hk : k = a
      · subst hk
        rw [List.cons_append, lookup_cons_self, lookup_cons_self]
        rfl
      · rw [List.cons_append, lookup_cons_ne b _ hk, lookup_cons_ne b rest hk,
          ih]

theorem lookup_removeKey (name n : String) :
    ∀ d : List (String × Nat),
      List.lookup n (removeKey name d) =
        if n = name then none else List.lookup n d := by
  intro d
  induction d with
  | nil => by_cases hn : n = name <;> simp [removeKey, List.lookup, hn]
  | cons p rest ih =>
      rcases p with ⟨a, b⟩
      by_cases ha : a = name
      · subst ha
        rw [removeKey, if_pos rfl, ih]
        by_cases hn : n = a
        · simp [hn]
        · rw [if_neg hn, if_neg hn, lookup_cons_ne b rest hn]
      · rw [removeKey, if_neg ha]
        by_cases hn : n = a
        · subst hn
          have hnn : ¬n = name := ha
          rw [if_neg hnn, lookup_cons_self, lookup_cons_self]
        · rw [lookup_cons_ne b _ hn, ih]
          by_cases hnm : n = name
          · rw [if_pos hnm, if_pos hnm]
          · rw [if_neg hnm, if_neg hnm, lookup_cons_ne b rest hn]

theorem lookup_setKey (name : String) (c : Nat) (n : String) :
    ∀ d : List (String × Nat),
      List.lookup n (setKey name c d) =
        if n = name then (List.lookup n d).map (fun _ => c)
        else List.lookup n d := by
  intro d
  induction d with
  | nil => by_cases hn : n = name <;> simp [setKey, List.lookup, hn]
  | cons p rest ih =>
      rcases p with ⟨a, b⟩
      by_cases ha : a = name
      · subst ha
        rw [setKey, if_pos rfl]
        by_cases hn : n = a
        · subst hn
          rw [if_pos rfl, lookup_cons_self, lookup_cons_self]
          rfl
        · rw [lookup_cons_ne c _ hn, ih, if_neg hn, if_neg hn,
            lookup_cons_ne b rest hn]
      · rw [setKey, if_neg ha]
        by_cases hn : n = a
        · subst hn
          have hnn : ¬n = name := ha
          rw [if_neg hnn, lookup_cons_self, lookup_cons_self]
        · rw [lookup_cons_ne b _ hn, ih]
          by_cases hnm : n = name
          · rw [if_pos hnm, if_pos hnm, lookup_cons_ne b rest hn]
          · rw [if_neg hnm, if_neg hnm, lookup_cons_ne b rest hn]

theorem lookup_distDec (d : List (String × Nat)) (name n : String) :
    List.lookup n (distDec d name) =
      if n = name then
        match List.lookup n d with
        | some c => if c ≤ 1 then none else some (c - 1)
        | none => none
      else List.lookup n d := by
  unfold distDec
  cases hc : List.lookup name d with
  | none =>
      dsimp only
      by_cases hn : n = name
      · subst hn; rw [if_pos rfl, hc]
      · rw [if_neg hn]
  | some c =>
      dsimp only
      by_cases hcle : c ≤ 1
      · rw [if_pos hcle, lookup_removeKey]
        by_cases hn : n = name
        · subst hn
          rw [if_pos rfl, if_pos rfl, hc]
          simp [hcle]
        · rw [if_neg hn, if_neg hn]
      · rw [if_neg hcle, lookup_setKey]
        by_cases hn : n = name
        · subst hn
          rw [if_pos rfl, if_pos rfl, hc]
          simp [hcle]
        · rw [if_neg hn, if_neg hn]

theorem lookup_distInc (d : List (String × Nat)) (name n : String) :
    List.lookup n (distInc d name) =
      if n = name then some ((List.lookup n d).getD 0 + 1)
      else List.lookup n d := by
  unfold distInc
  cases hc : List.lookup name d with
  | none =>
      rw [lookup_append]
      by_cases hn : n = name
      · subst hn
        rw [if_pos rfl, hc, lookup_cons_self]
        rfl
      · rw [if_neg hn, lookup_cons_ne 1 [] hn]
        simp [List.lookup, Option.or_none]
  | some c =>
      rw [lookup_setKey]
      by_cases hn : n = name
      · subst hn
        rw [if_pos rfl, if_pos rfl, hc]
        rfl
      · rw [if_neg hn, if_neg hn]

theorem foldl_distDec_lookup :
    ∀ (ns : List String) (d : List (String × Nat)) (n : String), ns.Nodup →
      List.lookup n (ns.foldl distDec d) =
        if n ∈ ns then
          match List.lookup n d with
          | some c => if c ≤ 1 then none else some (c - 1)
          | none => none
        else List.lookup n d := by
  intro ns
  induction ns with
  | nil => intro d n _; simp
  | cons m ms ih =>
      intro d n hnd
      rcases List.nodup_cons.1 hnd with ⟨hm, hms⟩
      rw [List.foldl_cons]
      by_cases hn : n = m
      · subst hn
        rw [ih (distDec d n) n hms, if_neg (fun hc => hm hc),
          if_pos (List.mem_cons_self n ms), lookup_distDec, if_pos rfl]
      · rw [ih (distDec d m) n hms]
        have hd : List.lookup n (distDec d m) = List.lookup n d := by
          rw [lookup_distDec, if_neg hn]
        by_cases hin : n ∈ ms
        · rw [if_pos hin, if_pos (List.mem_cons_of_mem m hin), hd]
        · rw [if_neg hin, hd,
            if_neg (fun hc => (List.mem_cons.1 hc).elim hn hin)]

theorem foldl_distInc_lookup :
    ∀ (ns : List String) (d : List (String × Nat)) (n : String), ns.Nodup →
      List.lookup n (ns.foldl distInc d) =
        if n ∈ ns then some ((List.lookup n d).getD 0 + 1)
        else List.lookup n d := by
  intro ns
  induction ns with
  | nil => intro d n _; simp
  | cons m ms ih =>
      intro d n hnd
      rcases List.nodup_cons.1 hnd with ⟨hm, hms⟩
      rw [List.foldl_cons]
      by_cases hn : n = m
      · subst hn
        rw [ih (distInc d n) n hms, if_neg (fun hc => hm hc),
          if_pos (List.mem_cons_self n ms), lookup_distInc, if_pos rfl]
      · rw [ih (distInc d m) n hms]
        have hd : List.lookup n (distInc d m) = List.lookup n d := by
          rw [lookup_distInc, if_neg hn]
        by_cases hin : n ∈ ms
        · rw [if_pos hin, if_pos (List.mem_cons_of_mem m hin), hd]
        · rw [if_neg hin, hd,
            if_neg (fun hc => (List.mem_cons.1 hc).elim hn hin)]

/-- The field names of a record under a fields-ids map (in record order);
`none` when some field id has no name. -/
def namesOf (fmap : FieldsIdsMap) : Rec → Option (List String)
  | [] => some []
  | (fid, _) :: rest =>
      match fmap.name fid with
      | none => none
      | some nm => (namesOf fmap rest).map (nm :: ·)

theorem decAllFields_eq (fmap : FieldsIdsMap) :
    ∀ (r : Rec) (ns : List String) (dist : List (String × Nat)),
      namesOf fmap r = some ns →
      decAllFields fmap dist r = .ok (ns.foldl distDec dist) := by
  intro r
  induction r with
  | nil =>
      intro ns dist h
      cases h
      rfl
  | cons p rest ih =>
      intro ns dist h
      rcases p with ⟨fid, v⟩
      rw [namesOf] at h
      cases hname : fmap.name fid with
      | none => rw [hname] at h; cases h
      | some nm =>
          rw [hname] at h
          rcases Option.map_eq_some'.1 h with ⟨ns', hns', rfl⟩
          rw [decAllFields.eq_def]
          dsimp only
          rw [hname]
          dsimp only
          rw [ih ns' (distDec dist nm) hns', List.foldl_cons]

theorem incAllFields_eq (fmap : FieldsIdsMap) :
    ∀ (r : Rec) (ns : List String) (dist : List (String × Nat)),
      namesOf fmap r = some ns →
      incAllFields fmap dist r = .ok (ns.foldl distInc dist) := by
  intro r
  induction r with
  | nil =>
      intro ns dist h
      cases h
      rfl
  | cons p rest ih =>
      intro ns dist h
      rcases p with ⟨fid, v⟩
      rw [namesOf] at h
      cases hname : fmap.name fid with
      | none => rw [hname] at h; cases h
      | some nm =>
          rw [hname] at h
          rcases Option.map_eq_some'.1 h with ⟨ns', hns', rfl⟩
          rw [incAllFields.eq_def]
          dsimp only
          rw [hname]
          dsimp only
          rw [ih ns' (distInc dist nm) hns', List.foldl_cons]

end Milli

namespace Milli

/-! ## C1 -/

/-- C1: the Finalize hit path.  For a drained external id found in the
external-ids map with internal id `d`: (a) when the prior stored record is
absent the step fails with `DatabaseMissingEntry`; (b) on success, `d` is
marked in `replaced_documents_ids` and the record emitted under `d` is the
update verbatim (ReplaceDocuments) or the record-merge of prior with
update (UpdateDocuments); (c) that merge is the right-biased key-union of
the two records; (d) the decrement pass un-counts every field of the
prior record in the field distribution, removing entries that reach
zero. -/
theorem C1_finalize_hit_semantics :
    (∀ (documents : List (Nat × Rec)) (external0 : List (String × Nat))
        (method : IndexDocumentsMethod) (s : FinState) (ext : String)
        (rec : Rec) (d : Nat),
        extGet external0 ext = some d →
        List.lookup d documents = none →
        finalizeStep documents external0 method s (ext, rec) =
          .error .databaseMissingEntry) ∧
    (∀ (documents : List (Nat × Rec)) (external0 : List (String × Nat))
        (method : IndexDocumentsMethod) (s s' : FinState) (ext : String)
        (rec : Rec) (d : Nat),
        extGet external0 ext = some d →
        finalizeStep documents external0 method s (ext, rec) = .ok s' →
        s'.acc.replaced = insert d s.acc.replaced ∧
        ∃ base, List.lookup d documents = some base ∧
          s'.orig = s.orig ++
            [(d, match method with
                 | .replaceDocuments => rec
                 | .updateDocuments => merge_two_obkvs base rec)]) ∧
    (∀ (base upd : Rec), keysSorted base → keysSorted upd →
        ∀ k, recGet (merge_two_obkvs base upd) k =
          (recGet upd k).or (recGet base k)) ∧
    (∀ (fmap : FieldsIdsMap) (dist : List (String × Nat)) (base : Rec)
        (bn : List String),
        namesOf fmap base = some bn → bn.Nodup →
        decAllFields fmap dist base = .ok (bn.foldl distDec dist) ∧
        ∀ n, List.lookup n (bn.foldl distDec dist) =
          if n ∈ bn then
            match List.lookup n dist with
            | some c => if c ≤ 1 then none else some (c - 1)
            | none => none
          else List.lookup n dist) := by
  refine ⟨?_, ?_, ?_, ?_⟩
  · intro documents external0 method s ext rec d hext hnone
    simp only [finalizeStep, hext, add_and_merge_original_document,
      eq_self_iff_true, if_true, hnone]
  · intro documents external0 method s s' ext rec d hext h
    simp only [finalizeStep, hext] at h
    cases hadd : add_and_merge_original_document documents method s.fmap true
        ext d rec s.acc with
    | error e => rw [hadd] at h; cases h
    | ok pr =>
        rcases pr with ⟨obkv, acc'⟩
        rw [hadd] at h
        dsimp only at h
        cases hbd : buildJsonDoc s.fmap [] obkv with
        | error e => rw [hbd] at h; cases h
        | ok doc =>
            rw [hbd] at h
            dsimp only at h
            cases henc : encodeFlattened s.fmap (flattenDoc doc) with
            | error e => rw [henc] at h; cases h
            | ok pf =>
                rcases pf with ⟨pairs, fmap'⟩
                rw [henc] at h
                dsimp only at h
                cases heo : encodeObkv pairs with
                | error e => rw [heo] at h; cases h
                | ok buffer =>
                    rw [heo] at h
                    dsimp only at h
                    cases h
                    simp only [add_and_merge_original_document,
                      eq_self_iff_true, if_true] at hadd
                    cases hbase : List.lookup d documents with
                    | none => rw [hbase] at hadd; cases hadd
                    | some base =>
                        rw [hbase] at hadd
                        dsimp only at hadd
                        cases hdec : decAllFields s.fmap s.acc.dist base with
                        | error e => rw [hdec] at hadd; cases hadd
                        | ok d1 =>
                            rw [hdec] at hadd
                            dsimp only at hadd
                            cases method with
                            | replaceDocuments =>
                                cases hinc : incAllFields s.fmap d1 rec with
                                | error e => rw [hinc] at hadd; cases hadd
                                | ok d2 =>
                                    rw [hinc] at hadd
                                    dsimp only at hadd
                                    cases hadd
                                    exact ⟨rfl, base, rfl, rfl⟩
                            | updateDocuments =>
                                cases hinc : incAllFields s.fmap d1
                                    (merge_two_obkvs base rec) with
                                | error e => rw [hinc] at hadd; cases hadd
                                | ok d2 =>
                                    rw [hinc] at hadd
                                    dsimp only at hadd
                                    cases hadd
                                    exact ⟨rfl, base, rfl, rfl⟩
  · exact merge_two_obkvs_lookup
  · intro fmap dist base bn hnames hnd
    exact ⟨decAllFields_eq fmap base bn dist hnames,
      fun n => foldl_distDec_lookup bn dist n hnd⟩

/-- Witness for C1: a concrete hit (`"a"` → internal id 7 in `storeA`)
under ReplaceDocuments. -/
theorem C1_finalize_hit_semantics_witness :
    (⟨{7}, ⟨[("id", 1), ("t", 1)], {7}, ∅, []⟩,
        [(7, [(0, Bytes.wellFormed (Json.str "a")),
              (1, Bytes.wellFormed (Json.str "z"))])],
        [(7, [(0, Bytes.wellFormed (Json.str "a")),
              (1, Bytes.wellFormed (Json.str "z"))])],
        ⟨["id", "t"]⟩, 1⟩ : FinState).acc.replaced =
      insert 7 (⟨{7}, ⟨[("id", 1), ("t", 1)], ∅, ∅, []⟩, [], [],
        ⟨["id", "t"]⟩, 0⟩ : FinState).acc.replaced ∧
    ∃ base, List.lookup 7 storeA.documents = some base ∧
      (⟨{7}, ⟨[("id", 1), ("t", 1)], {7}, ∅, []⟩,
          [(7, [(0, Bytes.wellFormed (Json.str "a")),
                (1, Bytes.wellFormed (Json.str "z"))])],
          [(7, [(0, Bytes.wellFormed (Json.str "a")),
                (1, Bytes.wellFormed (Json.str "z"))])],
          ⟨["id", "t"]⟩, 1⟩ : FinState).orig =
        (⟨{7}, ⟨[("id", 1), ("t", 1)], ∅, ∅, []⟩, [], [],
          ⟨["id", "t"]⟩, 0⟩ : FinState).orig ++
          [(7, match IndexDocumentsMethod.replaceDocuments with
               | .replaceDocuments =>
                   [(0, Bytes.wellFormed (Json.str "a")),
                    (1, Bytes.wellFormed (Json.str "z"))]
               | .updateDocuments =>
                   merge_two_obkvs base
                     [(0, Bytes.wellFormed (Json.str "a")),
                      (1, Bytes.wellFormed (Json.str "z"))])] :=
  C1_finalize_hit_semantics.2.1 storeA.documents [("a", 7)]
    .replaceDocuments
    ⟨{7}, ⟨[("id", 1), ("t", 1)], ∅, ∅, []⟩, [], [], ⟨["id", "t"]⟩, 0⟩
    ⟨{7}, ⟨[("id", 1), ("t", 1)], {7}, ∅, []⟩,
      [(7, [(0, Bytes.wellFormed (Json.str "a")),
            (1, Bytes.wellFormed (Json.str "z"))])],
      [(7, [(0, Bytes.wellFormed (Json.str "a")),
            (1, Bytes.wellFormed (Json.str "z"))])],
      ⟨["id", "t"]⟩, 1⟩
    "a" [(0, Bytes.wellFormed (Json.str "a")),
         (1, Bytes.wellFormed (Json.str "z"))] 7
    (by decide) (by decide)

end Milli

namespace Milli

/-! ## C4 support: shape of a finalize step and the loop invariant -/

theorem add_and_merge_shape_hit {documents : List (Nat × Rec)}
    {method : IndexDocumentsMethod} {fmap : FieldsIdsMap} {ext : String}
    {d : Nat} {rec obkv : Rec} {acc acc' : MergeAcc}
    (h : add_and_merge_original_document documents method fmap true ext d rec
        acc = .ok (obkv, acc')) :
    acc'.replaced = insert d acc.replaced ∧ acc'.newIds = acc.newIds ∧
    acc'.builder = acc.builder := by
  simp only [add_and_merge_original_document, eq_self_iff_true, if_true] at h
  cases hbase : List.lookup d documents with
  | none => rw [hbase] at h; cases h
  | some base =>
      rw [hbase] at h
      dsimp only at h
      cases hdec : decAllFields fmap acc.dist base with
      | error e => rw [hdec] at h; cases h
      | ok d1 =>
          rw [hdec] at h
          dsimp only at h
          cases method with
          | replaceDocuments =>
              cases hinc : incAllFields fmap d1 rec with
              | error e => rw [hinc] at h; cases h
              | ok d2 =>
                  rw [hinc] at h
                  dsimp only at h
                  cases h
                  exact ⟨rfl, rfl, rfl⟩
          | updateDocuments =>
              cases hinc : incAllFields fmap d1 (merge_two_obkvs base rec) with
              | error e => rw [hinc] at h; cases h
              | ok d2 =>
                  rw [hinc] at h
                  dsimp only at h
                  cases h
                  exact ⟨rfl, rfl, rfl⟩

theorem add_and_merge_shape_miss {documents : List (Nat × Rec)}
    {method : IndexDocumentsMethod} {fmap : FieldsIdsMap} {ext : String}
    {d : Nat} {rec obkv : Rec} {acc acc' : MergeAcc}
    (h : add_and_merge_original_document documents method fmap false ext d rec
        acc = .ok (obkv, acc')) :
    obkv = rec ∧ acc'.replaced = acc.replaced ∧
    acc'.newIds = insert d acc.newIds ∧
    acc'.builder = acc.builder ++ [(ext, d)] := by
  simp only [add_and_merge_original_document, Bool.false_eq_true, if_false]
    at h
  cases hinc : incAllFields fmap acc.dist rec with
  | error e => rw [hinc] at h; cases h
  | ok d2 =>
      rw [hinc] at h
      dsimp only at h
      cases h
      exact ⟨rfl, rfl, rfl, rfl⟩

theorem finalizeStep_shape {documents : List (Nat × Rec)}
    {external0 : List (String × Nat)} {method : IndexDocumentsMethod}
    {s s' : FinState} {kv : String × Rec}
    (h : finalizeStep documents external0 method s kv = .ok s') :
    ∃ docid updated used' obkv acc' buffer fmap',
      ((extGet external0 kv.1 = some docid ∧ updated = true ∧
          used' = s.used) ∨
       (extGet external0 kv.1 = none ∧ updated = false ∧
          availNext s.used = some docid ∧ used' = insert docid s.used)) ∧
      add_and_merge_original_document documents method s.fmap updated kv.1
        docid kv.2 s.acc = .ok (obkv, acc') ∧
      s' = ⟨used', acc', s.orig ++ [(docid, obkv)],
            s.flat ++ [(docid, buffer)], fmap', s.count + 1⟩ := by
  unfold finalizeStep at h
  cases hres : extGet external0 kv.1 with
  | some d =>
      rw [hres] at h
      dsimp only at h
      cases hadd : add_and_merge_original_document documents method s.fmap
          true kv.1 d kv.2 s.acc with
      | error e => rw [hadd] at h; cases h
      | ok pr =>
          rcases pr with ⟨obkv, acc'⟩
          rw [hadd] at h
          dsimp only at h
          cases hbd : buildJsonDoc s.fmap [] obkv with
          | error e => rw [hbd] at h; cases h
          | ok doc =>
              rw [hbd] at h
              dsimp only at h
              cases henc : encodeFlattened s.fmap (flattenDoc doc) with
              | error e => rw [henc] at h; cases h
              | ok pf =>
                  rcases pf with ⟨pairs, fmap'⟩
                  rw [henc] at h
                  dsimp only at h
                  cases heo : encodeObkv pairs with
                  | error e => rw [heo] at h; cases h
                  | ok buffer =>
                      rw [heo] at h
                      dsimp only at h
                      cases h
                      exact ⟨d, true, s.used, obkv, acc', buffer, fmap',
                        Or.inl ⟨rfl, rfl, rfl⟩, hadd, rfl⟩
  | none =>
      rw [hres] at h
      dsimp only at h
      cases hav : availNext s.used with
      | none => rw [hav] at h; cases h
      | some n =>
          rw [hav] at h
          dsimp only at h
          cases hadd : add_and_merge_original_document documents method s.fmap
              false kv.1 n kv.2 s.acc with
          | error e => rw [hadd] at h; cases h
          | ok pr =>
              rcases pr with ⟨obkv, acc'⟩
              rw [hadd] at h
              dsimp only at h
              cases hbd : buildJsonDoc s.fmap [] obkv with
              | error e => rw [hbd] at h; cases h
              | ok doc =>
                  rw [hbd] at h
                  dsimp only at h
                  cases henc : encodeFlattened s.fmap (flattenDoc doc) with
                  | error e => rw [henc] at h; cases h
                  | ok pf =>
                      rcases pf with ⟨pairs, fmap'⟩
                      rw [henc] at h
                      dsimp only at h
                      cases heo : encodeObkv pairs with
                      | error e => rw [heo] at h; cases h
                      | ok buffer =>
                          rw [heo] at h
                          dsimp only at h
                          cases h
                          exact ⟨n, false, insert n s.used, obkv, acc', buffer,
                            fmap', Or.inr ⟨rfl, rfl, rfl, rfl⟩, hadd, rfl⟩

end Milli

namespace Milli

/-- The invariant the finalize loop maintains over the accounting state,
relative to the starting used-id set `dids`. -/
def FinInv (dids : Finset Nat) (s : FinState) : Prop :=
  (∀ d ∈ s.acc.newIds, d ∉ dids) ∧
  (∀ d ∈ s.acc.replaced, d ∈ dids) ∧
  (∀ d ∈ dids, d ∈ s.used) ∧
  (∀ d ∈ s.acc.newIds, d ∈ s.used) ∧
  (∀ d, d ∈ s.orig.map (·.1) → d ∈ s.acc.newIds ∨ d ∈ s.acc.replaced) ∧
  (∀ d, d ∈ s.flat.map (·.1) → d ∈ s.acc.newIds ∨ d ∈ s.acc.replaced)

theorem finalizeStep_inv {documents : List (Nat × Rec)}
    {external0 : List (String × Nat)} {method : IndexDocumentsMethod}
    {dids : Finset Nat} {s s' : FinState} {kv : String × Rec}
    (Hwf : ∀ e d, extGet external0 e = some d → d ∈ dids)
    (hstep : finalizeStep documents external0 method s kv = .ok s')
    (hinv : FinInv dids s) : FinInv dids s' := by
  obtain ⟨h1, h2, h3, h4, h5, h6⟩ := hinv
  rcases finalizeStep_shape hstep with
    ⟨docid, updated, used', obkv, acc', buffer, fmap', hres, hadd, rfl⟩
  rcases hres with ⟨hext, rfl, rfl⟩ | ⟨hext, rfl, hav, rfl⟩
  · -- hit
    obtain ⟨hr, hn, _⟩ := add_and_merge_shape_hit hadd
    have hdid : docid ∈ dids := Hwf kv.1 docid hext
    refine ⟨?_, ?_, h3, ?_, ?_, ?_⟩
    · intro d hd; rw [hn] at hd; exact h1 d hd
    · intro d hd
      rw [hr] at hd
      rcases Finset.mem_insert.1 hd with rfl | hd
      · exact hdid
      · exact h2 d hd
    · intro d hd; rw [hn] at hd; exact h4 d hd
    · intro d hd
      simp only [List.map_append, List.mem_append] at hd
      rcases hd with hd | hd
      · rcases h5 d hd with hnew | hrep
        · exact Or.inl (hn ▸ hnew)
        · exact Or.inr (hr ▸ Finset.mem_insert_of_mem hrep)
      · simp at hd
        subst hd
        exact Or.inr (hr ▸ Finset.mem_insert_self _ _)
    · intro d hd
      simp only [List.map_append, List.mem_append] at hd
      rcases hd with hd | hd
      · rcases h6 d hd with hnew | hrep
        · exact Or.inl (hn ▸ hnew)
        · exact Or.inr (hr ▸ Finset.mem_insert_of_mem hrep)
      · simp at hd
        subst hd
        exact Or.inr (hr ▸ Finset.mem_insert_self _ _)
  · -- miss
    obtain ⟨-, hr, hn, -⟩ := add_and_merge_shape_miss hadd
    have hfresh : docid ∉ s.used := (availNext_spec hav).1
    have hfresh' : docid ∉ dids := fun hc => hfresh (h3 docid hc)
    refine ⟨?_, ?_, ?_, ?_, ?_, ?_⟩
    · intro d hd
      rw [hn] at hd
      rcases Finset.mem_insert.1 hd with rfl | hd
      · exact hfresh'
      · exact h1 d hd
    · intro d hd; rw [hr] at hd; exact h2 d hd
    · intro d hd; exact Finset.mem_insert_of_mem (h3 d hd)
    · intro d hd
      rw [hn] at hd
      rcases Finset.mem_insert.1 hd with rfl | hd
      · exact Finset.mem_insert_self _ _
      · exact Finset.mem_insert_of_mem (h4 d hd)
    · intro d hd
      simp only [List.map_append, List.mem_append] at hd
      rcases hd with hd | hd
      · rcases h5 d hd with hnew | hrep
        · exact Or.inl (hn ▸ Finset.mem_insert_of_mem hnew)
        · exact Or.inr (hr ▸ hrep)
      · simp at hd
        subst hd
        exact Or.inl (hn ▸ Finset.mem_insert_self _ _)
    · intro d hd
      simp only [List.map_append, List.mem_append] at hd
      rcases hd with hd | hd
      · rcases h6 d hd with hnew | hrep
        · exact Or.inl (hn ▸ Finset.mem_insert_of_mem hnew)
        · exact Or.inr (hr ▸ hrep)
      · simp at hd
        subst hd
        exact Or.inl (hn ▸ Finset.mem_insert_self _ _)

theorem foldFinalize_inv {documents : List (Nat × Rec)}
    {external0 : List (String × Nat)} {method : IndexDocumentsMethod}
    {dids : Finset Nat}
    (Hwf : ∀ e d, extGet external0 e = some d → d ∈ dids) :
    ∀ (l : List (String × Rec)) (s s' : FinState),
      foldFinalize documents external0 method s l = .ok s' →
      FinInv dids s → FinInv dids s' := by
  intro l
  induction l with
  | nil =>
      intro s s' h hinv
      cases h
      exact hinv
  | cons kv rest ih =>
      intro s s' h hinv
      rw [foldFinalize] at h
      cases hstep : finalizeStep documents external0 method s kv with
      | error e => rw [hstep] at h; cases h
      | ok s1 =>
          rw [hstep] at h
          exact ih s1 s' h (finalizeStep_inv Hwf hstep hinv)

end Milli

namespace Milli

/-! ## C4 -/

/-- C4: after Finalize, every internal id appearing in either emitted
stream lies in exactly one of `new_documents_ids` and
`replaced_documents_ids` (assuming the store is well-formed: external-map
hits land in the used-id set); and on a miss, the id is freshly allocated
as the smallest unused internal id, marked new, recorded in the
incremental external-map builder, with `DocumentLimitReached` on allocator
exhaustion. -/
theorem C4_new_replaced_partition :
    (∀ (st : Store) (inserts : List (String × Rec))
        (method : IndexDocumentsMethod) (out : WriteFinalOut),
        (∀ e d, extGet st.external_documents_ids e = some d →
            d ∈ st.documents_ids) →
        write_final_sorter st inserts method = .ok out →
        ∀ d, (d ∈ out.original_documents.map (·.1) ∨
              d ∈ out.flattened_documents.map (·.1)) →
          (d ∈ out.new_documents_ids ↔ d ∉ out.replaced_documents_ids)) ∧
    (∀ (documents : List (Nat × Rec)) (external0 : List (String × Nat))
        (method : IndexDocumentsMethod) (s : FinState) (ext : String)
        (rec : Rec),
        extGet external0 ext = none →
        (availNext s.used = none →
          finalizeStep documents external0 method s (ext, rec) =
            .error .documentLimitReached) ∧
        ∀ n, availNext s.used = some n →
          (n ∉ s.used ∧ ∀ m, m < n → m ∈ s.used) ∧
          ∀ s', finalizeStep documents external0 method s (ext, rec) = .ok s' →
            n ∈ s'.acc.newIds ∧ (ext, n) ∈ s'.acc.builder ∧
            s'.used = insert n s.used) := by
  constructor
  · intro st inserts method out Hwf h
    unfold write_final_sorter at h
    cases hd : drainSorter (mergeFnOf method) inserts with
    | error e => rw [hd] at h; cases h
    | ok drained =>
        rw [hd] at h
        dsimp only at h
        cases hf : foldFinalize st.documents st.external_documents_ids method
            ⟨st.documents_ids, ⟨st.field_distribution, ∅, ∅, []⟩, [], [],
              st.fields_ids_map, 0⟩ drained with
        | error e => rw [hf] at h; cases h
        | ok s =>
            rw [hf] at h
            dsimp only at h
            cases ho : drainSorterN forbid_duplicates s.orig with
            | error e => rw [ho] at h; cases h
            | ok origOut =>
                rw [ho] at h
                dsimp only at h
                cases hfl : drainSorterN forbid_duplicates s.flat with
                | error e => rw [hfl] at h; cases h
                | ok flatOut =>
                    rw [hfl] at h
                    dsimp only at h
                    cases h
                    have hinv : FinInv st.documents_ids s :=
                      foldFinalize_inv Hwf drained _ s hf
                        ⟨by simp, by simp, fun d hd => hd, by simp,
                          by simp, by simp⟩
                    obtain ⟨h1, h2, _, _, h5, h6⟩ := hinv
                    intro d hdm
                    have hmem : d ∈ s.acc.newIds ∨ d ∈ s.acc.replaced := by
                      rcases hdm with hdm | hdm
                      · rcases List.mem_map.1 hdm with ⟨p, hp, rfl⟩
                        exact h5 p.1 (drainSorterN_keys ho p hp)
                      · rcases List.mem_map.1 hdm with ⟨p, hp, rfl⟩
                        exact h6 p.1 (drainSorterN_keys hfl p hp)
                    constructor
                    · intro hnew hrep
                      exact h1 d hnew (h2 d hrep)
                    · intro hnrep
                      rcases hmem with hm | hm
                      · exact hm
                      · exact absurd hm hnrep
  · intro documents external0 method s ext rec hext
    constructor
    · intro hav
      simp only [finalizeStep, hext, hav]
    · intro n hav
      refine ⟨⟨(availNext_spec hav).1, (availNext_spec hav).2⟩, ?_⟩
      intro s' hstep
      rcases finalizeStep_shape hstep with
        ⟨docid, updated, used', obkv, acc', buffer, fmap', hres, hadd, rfl⟩
      rcases hres with ⟨hx, _, _⟩ | ⟨hx, rfl, hav', rfl⟩
      · rw [hext] at hx; cases hx
      · rw [hav] at hav'
        cases hav'
        obtain ⟨-, -, hn, hb⟩ := add_and_merge_shape_miss hadd
        refine ⟨?_, ?_, rfl⟩
        · dsimp only
          rw [hn]
          exact Finset.mem_insert_self _ _
        · dsimp only
          rw [hb]
          exact List.mem_append.2 (Or.inr (List.mem_cons_self _ _))

end Milli

namespace Milli

/-- Witness for C4: a concrete run with one hit (external `"a"`, internal
7) and one miss (external `"b"`, freshly allocated internal 0). -/
theorem C4_new_replaced_partition_witness :
    7 ∈ (⟨2, {7},
        [(0, [(0, Bytes.wellFormed (Json.str "b"))]),
         (7, [(0, Bytes.wellFormed (Json.str "a")),
              (1, Bytes.wellFormed (Json.str "z"))])],
        [(0, [(0, Bytes.wellFormed (Json.str "b"))]),
         (7, [(0, Bytes.wellFormed (Json.str "a")),
              (1, Bytes.wellFormed (Json.str "z"))])],
        [("id", 2), ("t", 1)], ⟨["id", "t"]⟩, {0},
        [("b", 0), ("a", 7)]⟩ : WriteFinalOut).new_documents_ids ↔
      7 ∉ (⟨2, {7},
        [(0, [(0, Bytes.wellFormed (Json.str "b"))]),
         (7, [(0, Bytes.wellFormed (Json.str "a")),
              (1, Bytes.wellFormed (Json.str "z"))])],
        [(0, [(0, Bytes.wellFormed (Json.str "b"))]),
         (7, [(0, Bytes.wellFormed (Json.str "a")),
              (1, Bytes.wellFormed (Json.str "z"))])],
        [("id", 2), ("t", 1)], ⟨["id", "t"]⟩, {0},
        [("b", 0), ("a", 7)]⟩ : WriteFinalOut).replaced_documents_ids :=
  C4_new_replaced_partition.1 storeA
    [("a", [(0, Bytes.wellFormed (Json.str "a")),
            (1, Bytes.wellFormed (Json.str "z"))]),
     ("b", [(0, Bytes.wellFormed (Json.str "b"))])]
    .replaceDocuments _
    (by
      intro e d h
      by_cases he : e = "a"
      · subst he
        rw [show extGet storeA.external_documents_ids "a" = some 7 from rfl]
          at h
        cases h
        decide
      · rw [show extGet storeA.external_documents_ids e =
              List.lookup e [("a", 7)] from rfl,
            lookup_cons_ne 7 [] he] at h
        cases h)
    (by decide) 7 (Or.inl (by decide))

end Milli
